import Mathlib

/-!
Shallow embedding of the Scouter pipeline orchestrator and its supporting
modules, together with proofs of the behavioural claims about them.

Sources embedded here:
* the retry executor and error taxonomy (`withRetry`, `calculateDelay`,
  `isRetryable`, `wrapError`, the presets) from `lib/resilience`;
* the job-search aggregation, ignore-list filter and deduplication from
  `lib/jobs/jsearch.ts`;
* the SSE pipeline orchestrator `POST` handler from the pipeline API route,
  modelled as a pure function from a request plus an oracle for the external
  collaborators (PDF extraction, the language model, the job-search provider)
  to the list of pipeline events written to the stream.

Conventions: JavaScript numbers that enter arithmetic are modelled as `ℚ`
(delays, progress fractions) with `Int.floor` for `Math.floor` and
`⌊x + 1/2⌋` for `Math.round`; thrown JavaScript values are modelled by the
`Thrown` type (either a typed `ScouterError` or a plain error carrying
message, code and status strings).  Heartbeat frames and stream closing are
transport-level and carry no payload relevant to the claims; the event list
contains the pipeline events only, in emission order.
-/

namespace Scouter

/-- Substring occurrence over character lists: the pattern occurs as a
contiguous run somewhere in the haystack. -/
def charsIncludes (pat : List Char) : List Char → Bool
  | [] => pat.isEmpty
  | c :: rest => pat.isPrefixOf (c :: rest) || charsIncludes pat rest

/-- JavaScript `String.prototype.includes`: substring test.  An empty
pattern is contained in every string. -/
def strIncludes (s pat : String) : Bool :=
  charsIncludes pat.data s.data

/-- JavaScript `String.prototype.toLowerCase`, character by character
(the sources only compare ASCII codes and keys). -/
def strLower (s : String) : String :=
  ⟨s.data.map Char.toLower⟩

/-- JavaScript `String.prototype.trim`: strip leading and trailing
whitespace. -/
def strTrim (s : String) : String :=
  ⟨((s.data.dropWhile Char.isWhitespace).reverse.dropWhile Char.isWhitespace).reverse⟩

/-- JavaScript `Math.round` on rationals: round half toward positive
infinity. -/
def jsRound (q : ℚ) : Int :=
  Int.floor (q + 1/2)

/-- The pipeline phase union from `lib/resilience/errors.ts`
(`PipelinePhase`), which also covers the stage values used by the stream
(`cancelled` appears only client-side). -/
inductive Phase
  | idle
  | parsing
  | searching
  | analyzing
  | generating
  | exporting
  | completed
  | cancelled
  | error
  deriving DecidableEq, Repr

/-- The typed error of the taxonomy (`class ScouterError`): message, code,
recoverability and originating phase.  Codes are the string literals of the
`ErrorCode` union. -/
structure ScouterError where
  message : String
  code : String
  recoverable : Bool
  phase : Phase
  deriving DecidableEq, Repr

/-- A plain JavaScript error value: its message plus the optional `code` and
HTTP-status-like fields read by `extractErrorInfo` (empty string when
absent, matching `err.code || ''` and `String(err.status || ... || '')`). -/
structure JsError where
  message : String
  code : String
  status : String
  deriving DecidableEq, Repr

/-- A thrown value reaching a catch handler: either an already classified
`ScouterError` or a plain error. -/
inductive Thrown
  | scouter (e : ScouterError)
  | js (e : JsError)
  deriving DecidableEq, Repr

/-- The `wrapError` helper of `lib/resilience/errors.ts`: a classified error
passes through unchanged, anything else is wrapped with the default code,
`recoverable = false` and the phase supplied by the caller. -/
def wrapError (t : Thrown) (phase : Phase) (defaultCode : String) : ScouterError :=
  match t with
  | .scouter se => se
  | .js je => ⟨je.message, defaultCode, false, phase⟩

/-- The `RetryConfig` record of `lib/resilience/retry.ts`.  `maxRetries` is
the number of retries, so up to `maxRetries + 1` attempts run. -/
structure RetryConfig where
  maxRetries : Nat
  baseDelay : ℚ
  maxDelay : ℚ
  backoffMultiplier : ℚ
  jitter : Bool
  retryablePatterns : List String
  deriving DecidableEq, Repr

/-- `DEFAULT_RETRY_CONFIG` from `lib/resilience/retry.ts`. -/
def defaultRetryConfig : RetryConfig :=
  { maxRetries := 3
    baseDelay := 1000
    maxDelay := 10000
    backoffMultiplier := 2
    jitter := true
    retryablePatterns :=
      ["TIMEOUT", "RATE_LIMITED", "429", "503", "502", "500",
       "ECONNRESET", "ETIMEDOUT", "ENOTFOUND", "fetch failed"] }

/-- `RetryPresets.fast`, merged with the defaults as `withRetry` does
(`{ ...DEFAULT_RETRY_CONFIG, ...config }`). -/
def fastPreset : RetryConfig :=
  { defaultRetryConfig with
    maxRetries := 2, baseDelay := 500, maxDelay := 2000, backoffMultiplier := 3/2 }

/-- `RetryPresets.standard`, merged with the defaults. -/
def standardPreset : RetryConfig :=
  { defaultRetryConfig with
    maxRetries := 3, baseDelay := 1000, maxDelay := 10000, backoffMultiplier := 2 }

/-- `RetryPresets.aggressive`, merged with the defaults. -/
def aggressivePreset : RetryConfig :=
  { defaultRetryConfig with
    maxRetries := 5, baseDelay := 2000, maxDelay := 30000, backoffMultiplier := 2 }

/-- `RetryPresets.rateLimited`, merged with the defaults; it narrows the
retryable patterns. -/
def rateLimitedPreset : RetryConfig :=
  { defaultRetryConfig with
    maxRetries := 3, baseDelay := 5000, maxDelay := 60000, backoffMultiplier := 2,
    retryablePatterns := ["429", "RATE_LIMITED", "rate limit"] }

/-- The error information record built by `extractErrorInfo`. -/
structure ErrorInfo where
  code : String
  status : String
  message : String
  deriving DecidableEq, Repr

/-- `extractErrorInfo`: a `ScouterError` contributes its code and message
with an empty status; a plain error contributes its `code`, status and
message fields. -/
def extractErrorInfo (t : Thrown) : ErrorInfo :=
  match t with
  | .scouter e => ⟨e.code, "", e.message⟩
  | .js e => ⟨e.code, e.status, e.message⟩

/-- `isRetryable`: a case-insensitive substring match of each pattern
against the message (the code and status comparisons are case-sensitive
`String.includes` calls in the source). -/
def isRetryable (t : Thrown) (patterns : List String) : Bool :=
  let info := extractErrorInfo t
  patterns.any fun pat =>
    strIncludes info.code pat || strIncludes info.status pat ||
      strIncludes (strLower info.message) (strLower pat)

/-- `calculateDelay`: exponential backoff capped at `maxDelay`, then an
optional jitter factor `0.5 + Math.random()`, then `Math.floor`.  `rand`
stands for the `Math.random()` draw of this attempt. -/
def calculateDelay (attempt : Nat) (cfg : RetryConfig) (rand : ℚ) : Int :=
  let d0 := cfg.baseDelay * cfg.backoffMultiplier ^ attempt
  let d1 := min d0 cfg.maxDelay
  let d2 := if cfg.jitter then d1 * (1/2 + rand) else d1
  Int.floor d2

/-- Outcome of one invocation of the retried operation. -/
inductive Outcome (α : Type)
  | ok (v : α)
  | fail (e : Thrown)
  deriving DecidableEq, Repr

/-- Observable trace of a `withRetry` execution: the final result, and the
argument pairs `(attempt, delay)` passed to the `onRetry` observer in
order.  `exhausted` records whether `onExhausted` fired. -/
structure RetryTrace (α : Type) where
  result : Except Thrown α
  retries : List (Nat × Int)
  exhausted : Bool
  deriving Repr

/-- The retry loop of `withRetry`, unfolded from attempt `attempt` with
`fuel` retries remaining (`fuel = maxRetries - attempt` along the real
loop).  `op k` is the outcome of the k-th invocation of the operation and
`rand k` the `Math.random()` draw used for the delay after it. -/
def withRetryGo {α : Type} (cfg : RetryConfig) (op : Nat → Outcome α) (rand : Nat → ℚ) :
    Nat → Nat → RetryTrace α
  | attempt, fuel =>
    match op attempt with
    | .ok v => ⟨.ok v, [], false⟩
    | .fail e =>
      if isRetryable e cfg.retryablePatterns then
        match fuel with
        | 0 => ⟨.error e, [], true⟩
        | fuel' + 1 =>
          let d := calculateDelay attempt cfg (rand attempt)
          let r := withRetryGo cfg op rand (attempt + 1) fuel'
          ⟨r.result, (attempt + 1, d) :: r.retries, r.exhausted⟩
      else ⟨.error e, [], false⟩

/-- `withRetry` from `lib/resilience/retry.ts`: run the operation for
attempts `0 .. maxRetries`; a non-retryable failure propagates at once, a
retryable failure with attempts remaining fires `onRetry(attempt + 1,
delay)` and loops, and exhaustion propagates the last error. -/
def withRetry {α : Type} (cfg : RetryConfig) (op : Nat → Outcome α) (rand : Nat → ℚ) :
    RetryTrace α :=
  withRetryGo cfg op rand 0 cfg.maxRetries

/-- The normalized job listing (`JobOpportunity`), restricted to the fields
the pipeline logic reads: identity, title, company and application URL. -/
structure Job where
  id : String
  title : String
  company : String
  applicationUrl : String
  deriving DecidableEq, Repr

/-- The deduplication key of `deduplicateJobs`: the single string
`company.toLowerCase().trim() + '-' + title.toLowerCase().trim()`. -/
def jobKey (j : Job) : String :=
  strTrim (strLower j.company) ++ "-" ++ strTrim (strLower j.title)

/-- The sequential filter of `deduplicateJobs`: keep a job exactly when its
key has not been seen yet, recording keys as the traversal proceeds. -/
def dedupGo (seen : List String) : List Job → List Job
  | [] => []
  | j :: rest =>
    if jobKey j ∈ seen then dedupGo seen rest
    else j :: dedupGo (jobKey j :: seen) rest

/-- `deduplicateJobs` from `lib/jobs/jsearch.ts`. -/
def deduplicateJobs (jobs : List Job) : List Job :=
  dedupGo [] jobs

/-- `filterIgnoredSites` from `lib/jobs/jsearch.ts`.  `ignored` stands for
the output of `getIgnoredSites` (the comma-split, trimmed, lower-cased
`IGNORED_JOB_SITES` environment list). -/
def filterIgnoredSites (ignored : List String) (jobs : List Job) : List Job :=
  if ignored.isEmpty then jobs
  else jobs.filter fun j =>
    !(ignored.any fun site => strIncludes (strLower j.applicationUrl) site)

/-- The per-role aggregation loop of `searchJobs`: each target role
contributes the listings its (retried) fetch produced; a role whose fetch
ultimately failed is logged and skipped, contributing nothing, which the
oracle represents as an empty list. -/
def searchAll (targetRoles : List String) (roleJobs : Nat → List Job) : List Job :=
  (List.range targetRoles.length).flatMap roleJobs

/-- The per-job fit analysis, restricted to the fields the orchestrator
reads: the id of the analyzed job and the overall score parsed from the
model output (no range validation is performed on it). -/
structure Analysis where
  jobId : String
  overallScore : Int
  deriving DecidableEq, Repr

/-- A generated cover letter draft, restricted to its job id. -/
structure Letter where
  jobId : String
  deriving DecidableEq, Repr

/-- The `complete` event summary (`PipelineSummary`); `durationMs` is wall
clock and not modelled. -/
structure Summary where
  totalJobs : Nat
  analyzedJobs : Nat
  highFitJobs : Nat
  mediumFitJobs : Nat
  coverLettersGenerated : Nat
  filesExported : Nat
  deriving DecidableEq, Repr

/-- The payload of an `error` event: `{ message, code, phase, recoverable }`
as sent by `pipeline.sendError`. -/
structure ErrorPayload where
  message : String
  code : String
  phase : Phase
  recoverable : Bool
  deriving DecidableEq, Repr

/-- The wire-level pipeline event union, in the shape the orchestrator
emits.  Heartbeats are produced by the transport timer, not by the
orchestrator, and are omitted. -/
inductive Event
  | phase (p : Phase) (progress : Int)
  | profile
  | job (j : Job)
  | analysis (a : Analysis)
  | coverLetter (c : Letter)
  | complete (s : Summary)
  | errorEv (e : ErrorPayload)
  deriving DecidableEq, Repr

/-- The parsed search configuration, restricted to the field the
orchestrator branches on. -/
structure SearchConfig where
  targetRoles : List String
  deriving DecidableEq, Repr

/-- The `options` object of the pipeline request body. -/
structure PipelineOptions where
  minFitScore : Option Int
  generateCoverLetters : Option Bool
  deriving DecidableEq, Repr

/-- The JSON body of the `config` form field (`PipelineRequest`). -/
structure PipelineRequest where
  searchConfig : SearchConfig
  options : Option PipelineOptions
  deriving DecidableEq, Repr

/-- Outcome of `extractTextFromPDF` on the uploaded file: success, a typed
PDF parse error (the `isPDFParseError` branch), or some other exception
that the route rethrows. -/
inductive PdfOutcome
  | ok (text : String)
  | parseErr (code : String) (msg : String) (recoverable : Bool)
  | thrown (t : Thrown)
  deriving Repr

/-- The uploaded resume file as the route observes it: whether the PDF
branch is taken (mime type or `.pdf` name), the PDF extraction outcome, and
the `file.text()` outcome for the non-PDF branch. -/
structure ResumeFile where
  isPdf : Bool
  pdfResult : PdfOutcome
  textResult : Except JsError String
  deriving Repr

/-- One incoming pipeline request: the two form fields (absent = `none`;
for `config`, the result of `JSON.parse` on it) plus the ignored-sites
environment list consulted by the search stage. -/
structure PipelineInput where
  resumeFile : Option ResumeFile
  configJson : Option (Except JsError PipelineRequest)
  ignoredSites : List String

/-- Oracle for the external collaborators of one run: the outcome of the
retried profile-extraction model call, the outcome of `JSON.parse` on its
text (`none` = parsed), the listings each target role search produced, the
parsed overall score of each job analysis by global job index (`none` = the
analysis call failed and was swallowed), and whether each cover-letter
generation by index into the qualifying list succeeded. -/
structure PipelineOracle where
  profileGen : Except Thrown String
  profileParse : Option JsError
  roleJobs : Nat → List Job
  analyzeScore : Nat → Option Int
  letterOk : Nat → Bool

/-- Result of the resume-extraction block of phase 1: extracted text, an
`error` event to send before closing (typed PDF failure), or a rethrown
exception headed for the top-level handler. -/
inductive ExtractStep
  | ok (text : String)
  | sendErr (p : ErrorPayload)
  | thrown (t : Thrown)
  deriving Repr

/-- Phase 1 extraction: the PDF branch maps a typed parse failure to an
`error` event with the native code and phase `parsing` and rethrows
anything else; the text branch propagates a `file.text()` rejection. -/
def extractResume (f : ResumeFile) : ExtractStep :=
  if f.isPdf then
    match f.pdfResult with
    | .ok t => .ok t
    | .parseErr code msg rcv => .sendErr ⟨msg, code, .parsing, rcv⟩
    | .thrown t => .thrown t
  else
    match f.textResult with
    | .ok t => .ok t
    | .error e => .thrown (.js e)

/-- The all-zero summary sent when the search yields no jobs. -/
def zeroSummary : Summary :=
  ⟨0, 0, 0, 0, 0, 0⟩

/-- The searching-phase streaming loop: one `job` event per surviving
listing, each followed by a `phase` event with progress
`Math.round((i + 1) / jobs.length * 100)`. -/
def jobStream (jobs : List Job) : List Event :=
  jobs.enum.flatMap fun ij =>
    [Event.job ij.2,
     Event.phase .searching (jsRound (((ij.1 + 1 : ℕ) : ℚ) / (jobs.length : ℚ) * 100))]

/-- The awaited results of one analysis batch, in batch order: the parsed
analysis for each job whose call succeeded (`jobId` stamped from the job,
score from the model output), failures omitted. -/
def batchResults (score : Nat → Option Int) (batch : List (Nat × Job)) : List Analysis :=
  batch.filterMap fun kj => (score kj.1).map fun s => Analysis.mk kj.2.id s

/-- The qualifying-job selection of the analysis loop: for each successful
analysis with `overallScore >= minFitScore`, the first job of the full list
whose id matches the analysis. -/
def highFitOf (allJobs : List Job) (minFit : Int) (as : List Analysis) : List Job :=
  as.filterMap fun a =>
    if minFit ≤ a.overallScore then allJobs.find? (fun j => j.id == a.jobId) else none

/-- The batch loop of the analyzing phase over the enumerated job list,
taking slices of three (`jobs.slice(i, i + 3)`): per batch, one `analysis`
event per successful result in batch order, then one `phase` event with
progress `Math.round((i + batch.length) / total * 100)`.  Returns the
emitted events, the accumulated analyses and the accumulated qualifying
jobs.  A final slice of fewer than three jobs is the last loop
iteration. -/
def analyzeLoop (allJobs : List Job) (total : Nat) (minFit : Int)
    (score : Nat → Option Int) : Nat → List (Nat × Job) → List Event × List Analysis × List Job
  | _, [] => ([], [], [])
  | i, x :: y :: z :: rest =>
    let succ := batchResults score [x, y, z]
    let prog := jsRound (((i + 3 : ℕ) : ℚ) / (total : ℚ) * 100)
    let r := analyzeLoop allJobs total minFit score (i + 3) rest
    (succ.map Event.analysis ++ [Event.phase .analyzing prog] ++ r.1,
     succ ++ r.2.1,
     highFitOf allJobs minFit succ ++ r.2.2)
  | i, batch =>
    let succ := batchResults score batch
    let prog := jsRound (((i + batch.length : ℕ) : ℚ) / (total : ℚ) * 100)
    (succ.map Event.analysis ++ [Event.phase .analyzing prog],
     succ,
     highFitOf allJobs minFit succ)

/-- The generating-phase loop over the enumerated qualifying jobs: when the
first analysis matching the job id exists, attempt the letter (a failure is
swallowed); a success emits one `coverLetter` event; every iteration ends
with one `phase` event with progress
`Math.round((i + 1) / total * 100)`. -/
def generateLoop (analyses : List Analysis) (letterOk : Nat → Bool) (total : Nat) :
    List (Nat × Job) → List Event × List Letter
  | [] => ([], [])
  | ij :: rest =>
    let prog := jsRound (((ij.1 + 1 : ℕ) : ℚ) / (total : ℚ) * 100)
    let r := generateLoop analyses letterOk total rest
    match analyses.find? (fun a => a.jobId == ij.2.id) with
    | some _ =>
      if letterOk ij.1 then
        (Event.coverLetter ⟨ij.2.id⟩ :: Event.phase .generating prog :: r.1,
         Letter.mk ij.2.id :: r.2)
      else (Event.phase .generating prog :: r.1, r.2)
    | none => (Event.phase .generating prog :: r.1, r.2)

/-- The phase 5 summary: counts over the accumulated analyses, with the
high and medium bands fixed at 80 and 60 in the source. -/
def mkSummary (jobs : List Job) (analyses : List Analysis) (letters : List Letter) : Summary :=
  { totalJobs := jobs.length
    analyzedJobs := analyses.length
    highFitJobs := (analyses.filter fun a => decide (80 ≤ a.overallScore)).length
    mediumFitJobs :=
      (analyses.filter fun a => decide (60 ≤ a.overallScore ∧ a.overallScore < 80)).length
    coverLettersGenerated := letters.length
    filesExported := 0 }

/-- How the orchestrator body ended: a normal return, or an exception
escaping toward the top-level catch. -/
inductive Exit
  | returned
  | threw (t : Thrown)
  deriving DecidableEq, Repr

/-- The effective minimum fit score: `options?.minFitScore ?? 60`. -/
def effMinFit (req : PipelineRequest) : Int :=
  ((req.options.bind PipelineOptions.minFitScore).getD 60)

/-- The effective cover-letter switch: `options?.generateCoverLetters ?? true`. -/
def effGenCL (req : PipelineRequest) : Bool :=
  ((req.options.bind PipelineOptions.generateCoverLetters).getD true)

/-- The listings surviving the searching stage before deduplication:
aggregation over the target roles, then the ignore-list filter. -/
def foundJobs (inp : PipelineInput) (req : PipelineRequest) (orc : PipelineOracle) : List Job :=
  filterIgnoredSites inp.ignoredSites (searchAll req.searchConfig.targetRoles orc.roleJobs)

/-- The deduplicated job list of a run that reaches the searching stage:
aggregation over the roles, the ignore-list filter, then deduplication. -/
def runJobs (inp : PipelineInput) (req : PipelineRequest) (orc : PipelineOracle) : List Job :=
  deduplicateJobs (foundJobs inp req orc)

/-- The analyzing-stage computation of a run: the batch loop over the
enumerated deduplicated jobs, with the effective minimum fit score. -/
def runAnalyze (inp : PipelineInput) (req : PipelineRequest) (orc : PipelineOracle) :
    List Event × List Analysis × List Job :=
  analyzeLoop (runJobs inp req orc) (runJobs inp req orc).length (effMinFit req)
    orc.analyzeScore 0 (runJobs inp req orc).enum

/-- The generating-stage computation of a run: skipped entirely unless
cover letters are enabled and some job qualified; otherwise the loop over
the enumerated qualifying jobs, preceded by the generating-phase zero
progress event. -/
def runGenerate (inp : PipelineInput) (req : PipelineRequest) (orc : PipelineOracle) :
    List Event × List Letter :=
  if effGenCL req && !(runAnalyze inp req orc).2.2.isEmpty then
    let g := generateLoop (runAnalyze inp req orc).2.1 orc.letterOk
      (runAnalyze inp req orc).2.2.length (runAnalyze inp req orc).2.2.enum
    (Event.phase .generating 0 :: g.1, g.2)
  else ([], [])

/-- The `try` block of the pipeline route `POST` handler, transcribed
branch by branch: the events it sends in order, and whether it returned or
threw.  The top-level catch is applied by `runPipeline`. -/
def pipelineBody (inp : PipelineInput) (orc : PipelineOracle) : List Event × Exit :=
  match inp.resumeFile, inp.configJson with
  | none, _ =>
    ([Event.errorEv ⟨"Missing resume file or search config", "VALIDATION_FAILED", .idle, false⟩],
     .returned)
  | some _, none =>
    ([Event.errorEv ⟨"Missing resume file or search config", "VALIDATION_FAILED", .idle, false⟩],
     .returned)
  | some file, some cfg =>
    match cfg with
    | .error e => ([], .threw (.js e))
    | .ok req =>
      match extractResume file with
      | .sendErr p => ([Event.phase .parsing 0, Event.errorEv p], .returned)
      | .thrown t => ([Event.phase .parsing 0], .threw t)
      | .ok _text =>
        match orc.profileGen with
        | .error t => ([Event.phase .parsing 0, Event.phase .parsing 50], .threw t)
        | .ok _profileJson =>
          match orc.profileParse with
          | some je =>
            ([Event.phase .parsing 0, Event.phase .parsing 50], .threw (.js je))
          | none =>
            let jobs := runJobs inp req orc
            let evHead : List Event :=
              [Event.phase .parsing 0, Event.phase .parsing 50, Event.profile,
               Event.phase .parsing 100, Event.phase .searching 0] ++ jobStream jobs
            if jobs.isEmpty then
              (evHead ++ [Event.complete zeroSummary], .returned)
            else
              let ar := runAnalyze inp req orc
              let gr := runGenerate inp req orc
              (evHead ++ [Event.phase .analyzing 0] ++ ar.1 ++ gr.1 ++
                 [Event.complete (mkSummary jobs ar.2.1 gr.2)],
               .returned)

/-- The single `error` event the top-level catch emits for a thrown value,
after `wrapError(error, 'error', 'UNKNOWN')`. -/
def wrapEv (t : Thrown) : Event :=
  let se := wrapError t .error "UNKNOWN"
  Event.errorEv ⟨se.message, se.code, se.phase, se.recoverable⟩

/-- The full `POST` handler: run the body; an escaping exception is wrapped
by `wrapError(error, 'error', 'UNKNOWN')` and sent as a single `error`
event before the stream closes. -/
def runPipeline (inp : PipelineInput) (orc : PipelineOracle) : List Event :=
  match pipelineBody inp orc with
  | (evs, .returned) => evs
  | (evs, .threw t) => evs ++ [wrapEv t]

/-- A terminal event of the stream protocol: `complete` or `error`. -/
def isTerminal : Event → Bool
  | .complete _ => true
  | .errorEv _ => true
  | _ => false

/-- The analyses carried by the `analysis` events of a stream, in order. -/
def analysisEvents (evs : List Event) : List Analysis :=
  evs.filterMap fun e => match e with | .analysis a => some a | _ => none

/-- The letters carried by the `coverLetter` events of a stream, in order. -/
def coverLetterEvents (evs : List Event) : List Letter :=
  evs.filterMap fun e => match e with | .coverLetter c => some c | _ => none

/-- The jobs carried by the `job` events of a stream, in order. -/
def jobEvents (evs : List Event) : List Job :=
  evs.filterMap fun e => match e with | .job j => some j | _ => none

/-- The payloads of the `error` events of a stream, in order. -/
def errorEvents (evs : List Event) : List ErrorPayload :=
  evs.filterMap fun e => match e with | .errorEv p => some p | _ => none

/-- The progress values of all `phase` events of a stream, in order. -/
def phaseProgresses (evs : List Event) : List Int :=
  evs.filterMap fun e => match e with | .phase _ v => some v | _ => none

/-- The progress values of the `phase` events of one given phase, in
order. -/
def progressesOf (p : Phase) (evs : List Event) : List Int :=
  evs.filterMap fun e =>
    match e with
    | .phase q v => if q = p then some v else none
    | _ => none

/-- Concrete listing used by the worked examples. -/
def demoJob1 : Job := ⟨"j1", "ML Engineer", "Acme", "https://jobs.example/a"⟩

/-- Concrete listing used by the worked examples. -/
def demoJob2 : Job := ⟨"j2", "Data Engineer", "Beta", "https://jobs.example/b"⟩

/-- Concrete listing used by the worked examples. -/
def demoJob3 : Job := ⟨"j3", "Platform Engineer", "Gamma", "https://jobs.example/c"⟩

/-- Concrete listing used by the worked examples. -/
def demoJob4 : Job := ⟨"j4", "Site Reliability Engineer", "Delta", "https://jobs.example/d"⟩

/-- A plain-text resume upload whose extraction succeeds. -/
def demoFile : ResumeFile := ⟨false, .ok "", .ok "resume text"⟩

/-- A valid request with one target role and no options object. -/
def demoReq : PipelineRequest := ⟨⟨["ML Engineer"]⟩, none⟩

/-- A valid input carrying `demoFile` and `demoReq`, with an empty
ignore-list environment. -/
def demoInput : PipelineInput := ⟨some demoFile, some (.ok demoReq), []⟩

/-- An oracle for a fully successful run over four listings with scores
90, 65, 40 and 70. -/
def demoOracle : PipelineOracle where
  profileGen := .ok "ok"
  profileParse := none
  roleJobs := fun _ => [demoJob1, demoJob2, demoJob3, demoJob4]
  analyzeScore := fun k =>
    if k = 0 then some 90 else if k = 1 then some 65
    else if k = 2 then some 40 else some 70
  letterOk := fun _ => true

/-- An oracle whose job search finds nothing. -/
def emptySearchOracle : PipelineOracle where
  profileGen := .ok "ok"
  profileParse := none
  roleJobs := fun _ => []
  analyzeScore := fun _ => none
  letterOk := fun _ => false

/-- An oracle whose profile-extraction model call succeeds but returns
text that is not valid JSON, so `JSON.parse` throws. -/
def malformedProfileOracle : PipelineOracle where
  profileGen := .ok "Sure! Here is the JSON you asked for"
  profileParse := some ⟨"Unexpected token S in JSON at position 0", "", ""⟩
  roleJobs := fun _ => []
  analyzeScore := fun _ => none
  letterOk := fun _ => false

/-- An oracle whose profile-extraction model call fails with a plain
network error even after retries. -/
def networkFailOracle : PipelineOracle where
  profileGen := .error (.js ⟨"fetch failed", "", ""⟩)
  profileParse := none
  roleJobs := fun _ => []
  analyzeScore := fun _ => none
  letterOk := fun _ => false

/-- A request whose `targetRoles` list is empty. -/
def emptyRolesReq : PipelineRequest := ⟨⟨[]⟩, none⟩

/-- An input that is valid except for the empty `targetRoles` list. -/
def emptyRolesInput : PipelineInput := ⟨some demoFile, some (.ok emptyRolesReq), []⟩

/-- A listing whose company name contains a hyphen. -/
def hyphenJob1 : Job := ⟨"h1", "dev", "acme-x", "https://jobs.example/h1"⟩

/-- A listing distinct from `hyphenJob1` as a (company, title) pair but
with the same concatenated deduplication key. -/
def hyphenJob2 : Job := ⟨"h2", "x-dev", "acme", "https://jobs.example/h2"⟩

/-- An oracle whose search returns the two hyphen-colliding listings. -/
def hyphenOracle : PipelineOracle where
  profileGen := .ok "ok"
  profileParse := none
  roleJobs := fun _ => [hyphenJob1, hyphenJob2]
  analyzeScore := fun _ => some 10
  letterOk := fun _ => false

/-- Request options disabling cover-letter generation. -/
def noLettersOpts : PipelineOptions := ⟨some 60, some false⟩

/-- A valid request whose options disable cover-letter generation. -/
def noLettersReq : PipelineRequest := ⟨⟨["ML Engineer"]⟩, some noLettersOpts⟩

/-- A valid input carrying `noLettersReq`. -/
def noLettersInput : PipelineInput := ⟨some demoFile, some (.ok noLettersReq), []⟩

/-- The same request with cover-letter generation enabled instead. -/
def withLettersReq : PipelineRequest := ⟨⟨["ML Engineer"]⟩, some ⟨some 60, some true⟩⟩

/-- The same input with cover-letter generation enabled instead. -/
def withLettersInput : PipelineInput := ⟨some demoFile, some (.ok withLettersReq), []⟩

/-- Fixed-size chunking into batches of three, as the claim describes the
analyzing stage (`jobs.slice(i, i + 3)` for `i = 0, 3, 6, ...`). -/
def chunks3 {α : Type} : List α → List (List α)
  | [] => []
  | x :: y :: z :: rest => [x, y, z] :: chunks3 rest
  | l => [l]

/-- Claim-side description of the `analysis` events one batch produces: one
event per job of the batch whose analysis succeeded, in batch order. -/
def specBatchEvents (score : Nat → Option Int) (batch : List (Nat × Job)) : List Event :=
  batch.filterMap fun kj => (score kj.1).map fun s => Event.analysis ⟨kj.2.id, s⟩

/-- Claim-side description of the whole analyzing-stage block, given the
per-batch progress values `ps`: each batch of three contributes its
successful analyses in batch order followed by exactly one `phase`
progress event. -/
def specAnalyzingBlock (jobs : List Job) (score : Nat → Option Int) (ps : List Int) :
    List Event :=
  ((chunks3 jobs.enum).zip ps).flatMap fun bp =>
    specBatchEvents score bp.1 ++ [Event.phase .analyzing bp.2]

/-- Events belonging to the analyzing stage: `analysis` events and
analyzing-phase progress events. -/
def isAnalyzingEvent : Event → Bool
  | .analysis _ => true
  | .phase .analyzing _ => true
  | _ => false

/-- The sequence of progress values the analyzing batch loop emits,
starting at processed count `i`. -/
def analyzePs (total : Nat) : Nat → List (Nat × Job) → List Int
  | _, [] => []
  | i, _ :: _ :: _ :: rest =>
    jsRound (((i + 3 : ℕ) : ℚ) / (total : ℚ) * 100) :: analyzePs total (i + 3) rest
  | i, l => [jsRound (((i + l.length : ℕ) : ℚ) / (total : ℚ) * 100)]

/-- Concrete operation for the C4 witness: two retryable timeouts, then
success. -/
def witRetryOp : Nat → Outcome Nat := fun k =>
  if k < 2 then Outcome.fail (.scouter ⟨"request timed out", "TIMEOUT", true, .parsing⟩)
  else Outcome.ok 42

/-! ## Retry executor -/

theorem calculateDelay_nonneg (attempt : Nat) (cfg : RetryConfig) (rand : ℚ)
    (hbase : 0 ≤ cfg.baseDelay) (hmax : 0 ≤ cfg.maxDelay)
    (hmul : 0 ≤ cfg.backoffMultiplier) (h0 : 0 ≤ rand) :
    0 ≤ calculateDelay attempt cfg rand := by
  unfold calculateDelay
  have h1 : (0 : ℚ) ≤ min (cfg.baseDelay * cfg.backoffMultiplier ^ attempt) cfg.maxDelay :=
    le_min (mul_nonneg hbase (pow_nonneg hmul _)) hmax
  have h2 : (0 : ℚ) ≤ 1/2 + rand := by linarith
  refine Int.le_floor.mpr ?_
  push_cast
  split
  · exact mul_nonneg h1 h2
  · exact h1

theorem calculateDelay_formula (attempt : Nat) (cfg : RetryConfig) (rand : ℚ) :
    calculateDelay attempt cfg rand =
      Int.floor ((min (cfg.baseDelay * cfg.backoffMultiplier ^ attempt) cfg.maxDelay) *
        (if cfg.jitter then 1/2 + rand else 1)) := by
  unfold calculateDelay
  split <;> simp

theorem withRetryGo_ok_after {α : Type} (cfg : RetryConfig) (op : Nat → Outcome α)
    (rand : Nat → ℚ) (v : α) :
    ∀ (n a fuel : Nat), n ≤ fuel →
      (∀ k, k < n →
        ∃ e, op (a + k) = Outcome.fail e ∧ isRetryable e cfg.retryablePatterns = true) →
      op (a + n) = Outcome.ok v →
      withRetryGo cfg op rand a fuel =
        ⟨Except.ok v,
         (List.range n).map fun k => (a + k + 1, calculateDelay (a + k) cfg (rand (a + k))),
         false⟩ := by
  intro n
  induction n with
  | zero =>
    intro a fuel _ _ hok
    rw [Nat.add_zero] at hok
    unfold withRetryGo
    simp [hok]
  | succ n ih =>
    intro a fuel hn hfail hok
    obtain ⟨e, hfe, hre⟩ := hfail 0 (Nat.succ_pos n)
    rw [Nat.add_zero] at hfe
    obtain ⟨fuel', rfl⟩ : ∃ f, fuel = f + 1 := ⟨fuel - 1, by omega⟩
    have hrec := ih (a + 1) fuel' (by omega)
      (fun k hk => by
        obtain ⟨e', h1, h2⟩ := hfail (k + 1) (by omega)
        exact ⟨e', by rw [show a + 1 + k = a + (k + 1) by omega]; exact h1, h2⟩)
      (by rw [show a + 1 + n = a + (n + 1) by omega]; exact hok)
    have hlist :
        ((List.range (n + 1)).map
          fun k => (a + k + 1, calculateDelay (a + k) cfg (rand (a + k)))) =
        (a + 1, calculateDelay a cfg (rand a)) ::
          ((List.range n).map
            fun k => (a + 1 + k + 1, calculateDelay (a + 1 + k) cfg (rand (a + 1 + k)))) := by
      rw [List.range_succ_eq_map, List.map_cons, List.map_map]
      refine congrArg₂ _ (by simp) (List.map_congr_left fun k _ => ?_)
      have h1 : a + (k + 1) = a + 1 + k := by omega
      simp [Function.comp, h1]
    unfold withRetryGo
    rw [hfe]
    simp only [hre, if_true, hrec, hlist]

/-- C4: an operation that fails `n` times with retryable failures and then
succeeds, run under a policy with `maxRetries ≥ n`, ultimately returns the
success value, and `onRetry` fires exactly `n` times, the k-th time with
attempt number `k + 1` and a non-negative delay equal to
`floor(min(maxDelay, baseDelay * backoffMultiplier^k) * jitterFactor)`,
where the jitter factor is the uniform draw `0.5 + random()` from
`[0.5, 1.5)` when jitter is enabled and `1` otherwise. -/
theorem withRetry_failNThenSucceed {α : Type} (cfg : RetryConfig) (op : Nat → Outcome α)
    (rand : Nat → ℚ) (v : α) (n : Nat)
    (hn : n ≤ cfg.maxRetries)
    (hfail : ∀ k, k < n →
      ∃ e, op k = Outcome.fail e ∧ isRetryable e cfg.retryablePatterns = true)
    (hok : op n = Outcome.ok v)
    (hbase : 0 ≤ cfg.baseDelay) (hmax : 0 ≤ cfg.maxDelay)
    (hmul : 0 ≤ cfg.backoffMultiplier)
    (hrand : ∀ k, 0 ≤ rand k ∧ rand k < 1) :
    (withRetry cfg op rand).result = Except.ok v ∧
    (withRetry cfg op rand).retries =
      ((List.range n).map fun k => (k + 1, calculateDelay k cfg (rand k))) ∧
    ∀ k, k < n →
      0 ≤ calculateDelay k cfg (rand k) ∧
      calculateDelay k cfg (rand k) =
        Int.floor ((min (cfg.baseDelay * cfg.backoffMultiplier ^ k) cfg.maxDelay) *
          (if cfg.jitter then 1/2 + rand k else 1)) := by
  have h := withRetryGo_ok_after cfg op rand v n 0 cfg.maxRetries hn
    (fun k hk => by simpa using hfail k hk) (by simpa using hok)
  unfold withRetry
  rw [h]
  refine ⟨rfl, by simp, fun k hk => ?_⟩
  exact ⟨calculateDelay_nonneg k cfg (rand k) hbase hmax hmul (hrand k).1,
    calculateDelay_formula k cfg (rand k)⟩

/-! ## Event-list segment characterizations -/

theorem jobEvents_append (a b : List Event) :
    jobEvents (a ++ b) = jobEvents a ++ jobEvents b :=
  List.filterMap_append a b _

theorem analysisEvents_append (a b : List Event) :
    analysisEvents (a ++ b) = analysisEvents a ++ analysisEvents b :=
  List.filterMap_append a b _

theorem coverLetterEvents_append (a b : List Event) :
    coverLetterEvents (a ++ b) = coverLetterEvents a ++ coverLetterEvents b :=
  List.filterMap_append a b _

theorem errorEvents_append (a b : List Event) :
    errorEvents (a ++ b) = errorEvents a ++ errorEvents b :=
  List.filterMap_append a b _

theorem phaseProgresses_append (a b : List Event) :
    phaseProgresses (a ++ b) = phaseProgresses a ++ phaseProgresses b :=
  List.filterMap_append a b _

theorem progressesOf_append (p : Phase) (a b : List Event) :
    progressesOf p (a ++ b) = progressesOf p a ++ progressesOf p b :=
  List.filterMap_append a b _

/-- The searching-stage stream over an arbitrary enumerated list and an
arbitrary progress computation: its `job` events are exactly the listed
jobs. -/
theorem jobEvents_pairStream (g : Nat → Int) (l : List (Nat × Job)) :
    jobEvents (l.flatMap fun ij => [Event.job ij.2, Event.phase .searching (g ij.1)]) =
      l.map Prod.snd := by
  induction l with
  | nil => rfl
  | cons x xs ih => simp [jobEvents, List.filterMap_append] at ih ⊢; exact ih

theorem analysisEvents_pairStream (g : Nat → Int) (l : List (Nat × Job)) :
    analysisEvents (l.flatMap fun ij => [Event.job ij.2, Event.phase .searching (g ij.1)]) =
      [] := by
  induction l with
  | nil => rfl
  | cons x xs ih => simp [analysisEvents, List.filterMap_append] at ih ⊢; exact ih

theorem coverLetterEvents_pairStream (g : Nat → Int) (l : List (Nat × Job)) :
    coverLetterEvents (l.flatMap fun ij => [Event.job ij.2, Event.phase .searching (g ij.1)]) =
      [] := by
  induction l with
  | nil => rfl
  | cons x xs ih => simp [coverLetterEvents, List.filterMap_append] at ih ⊢; exact ih

theorem errorEvents_pairStream (g : Nat → Int) (l : List (Nat × Job)) :
    errorEvents (l.flatMap fun ij => [Event.job ij.2, Event.phase .searching (g ij.1)]) =
      [] := by
  induction l with
  | nil => rfl
  | cons x xs ih => simp [errorEvents, List.filterMap_append] at ih ⊢; exact ih

theorem filter_isTerminal_pairStream (g : Nat → Int) (l : List (Nat × Job)) :
    (l.flatMap fun ij => [Event.job ij.2, Event.phase .searching (g ij.1)]).filter
      isTerminal = [] := by
  induction l with
  | nil => rfl
  | cons x xs ih => simp [List.filter_append, isTerminal] at ih ⊢; exact ih

theorem progressesOf_searching_pairStream (g : Nat → Int) (l : List (Nat × Job)) :
    progressesOf .searching
      (l.flatMap fun ij => [Event.job ij.2, Event.phase .searching (g ij.1)]) =
      l.map fun ij => g ij.1 := by
  induction l with
  | nil => rfl
  | cons x xs ih => simp [progressesOf, List.filterMap_append] at ih ⊢; exact ih

theorem progressesOf_ne_searching_pairStream (p : Phase) (hp : p ≠ .searching)
    (g : Nat → Int) (l : List (Nat × Job)) :
    progressesOf p
      (l.flatMap fun ij => [Event.job ij.2, Event.phase .searching (g ij.1)]) = [] := by
  induction l with
  | nil => rfl
  | cons x xs ih =>
    simp [progressesOf, List.filterMap_append] at ih ⊢
    exact ⟨fun h => absurd h.symm hp, ih⟩

theorem specBatchEvents_eq_map (s : Nat → Option Int) (b : List (Nat × Job)) :
    specBatchEvents s b = (batchResults s b).map Event.analysis := by
  simp [specBatchEvents, batchResults, List.map_filterMap, Option.map_map, Function.comp_def]

theorem analysisEvents_map_analysis (l : List Analysis) :
    analysisEvents (l.map Event.analysis) = l := by
  induction l with
  | nil => rfl
  | cons a t ih => simp [analysisEvents] at ih ⊢; exact ih

theorem coverLetterEvents_map_analysis (l : List Analysis) :
    coverLetterEvents (l.map Event.analysis) = [] := by
  induction l with
  | nil => rfl
  | cons a t ih => simp [coverLetterEvents]

theorem jobEvents_map_analysis (l : List Analysis) :
    jobEvents (l.map Event.analysis) = [] := by
  induction l with
  | nil => rfl
  | cons a t ih => simp [jobEvents]

theorem errorEvents_map_analysis (l : List Analysis) :
    errorEvents (l.map Event.analysis) = [] := by
  induction l with
  | nil => rfl
  | cons a t ih => simp [errorEvents]

theorem filter_isTerminal_map_analysis (l : List Analysis) :
    (l.map Event.analysis).filter isTerminal = [] := by
  induction l with
  | nil => rfl
  | cons a t ih => simp [isTerminal]

theorem progressesOf_map_analysis (p : Phase) (l : List Analysis) :
    progressesOf p (l.map Event.analysis) = [] := by
  induction l with
  | nil => rfl
  | cons a t ih => simp [progressesOf]

theorem analyzeLoop_analyses (A : List Job) (t : Nat) (m : Int) (s : Nat → Option Int)
    (i : Nat) (l : List (Nat × Job)) :
    (analyzeLoop A t m s i l).2.1 =
      l.filterMap fun kj => (s kj.1).map fun v => Analysis.mk kj.2.id v := by
  induction i, l using analyzeLoop.induct A t m s with
  | case1 i => rfl
  | case2 i x y z rest ih =>
    rw [analyzeLoop.eq_2]
    dsimp only
    rw [ih]
    unfold batchResults
    rw [← List.filterMap_append]
    rfl
  | case3 i batch h1 h2 =>
    rw [analyzeLoop.eq_3 A t m s i batch h1 h2]
    rfl

theorem analysisEvents_analyzeLoop (A : List Job) (t : Nat) (m : Int) (s : Nat → Option Int)
    (i : Nat) (l : List (Nat × Job)) :
    analysisEvents (analyzeLoop A t m s i l).1 = (analyzeLoop A t m s i l).2.1 := by
  induction i, l using analyzeLoop.induct A t m s with
  | case1 i => rfl
  | case2 i x y z rest ih =>
    rw [analyzeLoop.eq_2]
    dsimp only
    rw [analysisEvents_append, analysisEvents_append, analysisEvents_map_analysis, ih]
    simp [analysisEvents]
  | case3 i batch h1 h2 =>
    rw [analyzeLoop.eq_3 A t m s i batch h1 h2]
    dsimp only
    rw [analysisEvents_append, analysisEvents_map_analysis]
    simp [analysisEvents]

theorem coverLetterEvents_analyzeLoop (A : List Job) (t : Nat) (m : Int)
    (s : Nat → Option Int) (i : Nat) (l : List (Nat × Job)) :
    coverLetterEvents (analyzeLoop A t m s i l).1 = [] := by
  induction i, l using analyzeLoop.induct A t m s with
  | case1 i => rfl
  | case2 i x y z rest ih =>
    rw [analyzeLoop.eq_2]
    dsimp only
    rw [coverLetterEvents_append, coverLetterEvents_append, coverLetterEvents_map_analysis, ih]
    simp [coverLetterEvents]
  | case3 i batch h1 h2 =>
    rw [analyzeLoop.eq_3 A t m s i batch h1 h2]
    dsimp only
    rw [coverLetterEvents_append, coverLetterEvents_map_analysis]
    simp [coverLetterEvents]

theorem jobEvents_analyzeLoop (A : List Job) (t : Nat) (m : Int)
    (s : Nat → Option Int) (i : Nat) (l : List (Nat × Job)) :
    jobEvents (analyzeLoop A t m s i l).1 = [] := by
  induction i, l using analyzeLoop.induct A t m s with
  | case1 i => rfl
  | case2 i x y z rest ih =>
    rw [analyzeLoop.eq_2]
    dsimp only
    rw [jobEvents_append, jobEvents_append, jobEvents_map_analysis, ih]
    simp [jobEvents]
  | case3 i batch h1 h2 =>
    rw [analyzeLoop.eq_3 A t m s i batch h1 h2]
    dsimp only
    rw [jobEvents_append, jobEvents_map_analysis]
    simp [jobEvents]

theorem errorEvents_analyzeLoop (A : List Job) (t : Nat) (m : Int)
    (s : Nat → Option Int) (i : Nat) (l : List (Nat × Job)) :
    errorEvents (analyzeLoop A t m s i l).1 = [] := by
  induction i, l using analyzeLoop.induct A t m s with
  | case1 i => rfl
  | case2 i x y z rest ih =>
    rw [analyzeLoop.eq_2]
    dsimp only
    rw [errorEvents_append, errorEvents_append, errorEvents_map_analysis, ih]
    simp [errorEvents]
  | case3 i batch h1 h2 =>
    rw [analyzeLoop.eq_3 A t m s i batch h1 h2]
    dsimp only
    rw [errorEvents_append, errorEvents_map_analysis]
    simp [errorEvents]

theorem filter_isTerminal_analyzeLoop (A : List Job) (t : Nat) (m : Int)
    (s : Nat → Option Int) (i : Nat) (l : List (Nat × Job)) :
    (analyzeLoop A t m s i l).1.filter isTerminal = [] := by
  induction i, l using analyzeLoop.induct A t m s with
  | case1 i => rfl
  | case2 i x y z rest ih =>
    rw [analyzeLoop.eq_2]
    dsimp only
    rw [List.filter_append, List.filter_append, filter_isTerminal_map_analysis, ih]
    simp [isTerminal]
  | case3 i batch h1 h2 =>
    rw [analyzeLoop.eq_3 A t m s i batch h1 h2]
    dsimp only
    rw [List.filter_append, filter_isTerminal_map_analysis]
    simp [isTerminal]

theorem progressesOf_analyzing_analyzeLoop (A : List Job) (t : Nat) (m : Int)
    (s : Nat → Option Int) (i : Nat) (l : List (Nat × Job)) :
    progressesOf .analyzing (analyzeLoop A t m s i l).1 = analyzePs t i l := by
  induction i, l using analyzeLoop.induct A t m s with
  | case1 i => rfl
  | case2 i x y z rest ih =>
    rw [analyzeLoop.eq_2, analyzePs.eq_2]
    dsimp only
    rw [progressesOf_append, progressesOf_append, progressesOf_map_analysis, ih]
    simp [progressesOf]
  | case3 i batch h1 h2 =>
    rw [analyzeLoop.eq_3 A t m s i batch h1 h2, analyzePs.eq_3 t i batch h1 h2]
    dsimp only
    rw [progressesOf_append, progressesOf_map_analysis]
    simp [progressesOf]

theorem progressesOf_ne_analyzing_analyzeLoop (p : Phase) (hp : p ≠ .analyzing)
    (A : List Job) (t : Nat) (m : Int) (s : Nat → Option Int) (i : Nat)
    (l : List (Nat × Job)) :
    progressesOf p (analyzeLoop A t m s i l).1 = [] := by
  induction i, l using analyzeLoop.induct A t m s with
  | case1 i => rfl
  | case2 i x y z rest ih =>
    rw [analyzeLoop.eq_2]
    dsimp only
    rw [progressesOf_append, progressesOf_append, progressesOf_map_analysis, ih]
    simp [progressesOf]
    exact fun h => absurd h.symm hp
  | case3 i batch h1 h2 =>
    rw [analyzeLoop.eq_3 A t m s i batch h1 h2]
    dsimp only
    rw [progressesOf_append, progressesOf_map_analysis]
    simp [progressesOf]
    exact fun h => absurd h.symm hp

theorem analyzeLoop_highFit (A : List Job) (t : Nat) (m : Int) (s : Nat → Option Int)
    (i : Nat) (l : List (Nat × Job)) :
    (analyzeLoop A t m s i l).2.2 = highFitOf A m (analyzeLoop A t m s i l).2.1 := by
  induction i, l using analyzeLoop.induct A t m s with
  | case1 i => rfl
  | case2 i x y z rest ih =>
    rw [analyzeLoop.eq_2]
    dsimp only
    rw [ih]
    unfold highFitOf
    rw [← List.filterMap_append]
  | case3 i batch h1 h2 =>
    rw [analyzeLoop.eq_3 A t m s i batch h1 h2]

theorem analyzeLoop_structure (A : List Job) (t : Nat) (m : Int) (s : Nat → Option Int)
    (i : Nat) (l : List (Nat × Job)) :
    (analyzeLoop A t m s i l).1 =
      ((chunks3 l).zip (analyzePs t i l)).flatMap
        (fun bp => specBatchEvents s bp.1 ++ [Event.phase .analyzing bp.2]) := by
  induction i, l using analyzeLoop.induct A t m s with
  | case1 i => rfl
  | case2 i x y z rest ih =>
    rw [analyzeLoop.eq_2, analyzePs.eq_2, chunks3.eq_2]
    dsimp only
    rw [List.zip_cons_cons, List.flatMap_cons, ih, specBatchEvents_eq_map]
  | case3 i batch h1 h2 =>
    rw [analyzeLoop.eq_3 A t m s i batch h1 h2, analyzePs.eq_3 t i batch h1 h2,
      chunks3.eq_3 batch h1 h2]
    dsimp only
    rw [List.zip_cons_cons, List.flatMap_cons, specBatchEvents_eq_map]
    simp

theorem mem_highFitOf (A : List Job) (m : Int) (as : List Analysis) (j : Job)
    (hj : j ∈ highFitOf A m as) :
    ∃ a ∈ as, m ≤ a.overallScore ∧ j.id = a.jobId := by
  obtain ⟨a, ha, hfa⟩ := List.mem_filterMap.mp hj
  by_cases hm : m ≤ a.overallScore
  · refine ⟨a, ha, hm, ?_⟩
    simp only [if_pos hm] at hfa
    have := List.find?_some hfa
    simpa using this
  · simp [if_neg hm] at hfa

theorem coverLetterEvents_generateLoop (as : List Analysis) (lo : Nat → Bool) (t : Nat)
    (l : List (Nat × Job)) :
    coverLetterEvents (generateLoop as lo t l).1 = (generateLoop as lo t l).2 := by
  induction l with
  | nil => rfl
  | cons ij rest ih =>
    simp only [generateLoop]
    cases as.find? (fun a => a.jobId == ij.2.id) with
    | none => simpa [coverLetterEvents] using ih
    | some a =>
      by_cases hlo : lo ij.1 <;> simp [hlo, coverLetterEvents] <;>
        simpa [coverLetterEvents] using ih

theorem mem_generateLoop_letters (as : List Analysis) (lo : Nat → Bool) (t : Nat)
    (l : List (Nat × Job)) (c : Letter) (hc : c ∈ (generateLoop as lo t l).2) :
    ∃ ij ∈ l, c.jobId = ij.2.id := by
  induction l with
  | nil => simp [generateLoop] at hc
  | cons ij rest ih =>
    simp only [generateLoop] at hc
    cases hfind : as.find? (fun a => a.jobId == ij.2.id) with
    | none =>
      rw [hfind] at hc
      obtain ⟨x, hx, he⟩ := ih hc
      exact ⟨x, List.mem_cons_of_mem _ hx, he⟩
    | some a =>
      rw [hfind] at hc
      by_cases hlo : lo ij.1
      · simp only [hlo, if_true] at hc
        rcases List.mem_cons.mp hc with h | h
        · exact ⟨ij, List.mem_cons_self _ _, by rw [h]⟩
        · obtain ⟨x, hx, he⟩ := ih h
          exact ⟨x, List.mem_cons_of_mem _ hx, he⟩
      · simp only [hlo, if_false] at hc
        obtain ⟨x, hx, he⟩ := ih hc
        exact ⟨x, List.mem_cons_of_mem _ hx, he⟩

theorem analysisEvents_generateLoop (as : List Analysis) (lo : Nat → Bool) (t : Nat)
    (l : List (Nat × Job)) :
    analysisEvents (generateLoop as lo t l).1 = [] := by
  induction l with
  | nil => rfl
  | cons ij rest ih =>
    simp only [generateLoop]
    cases as.find? (fun a => a.jobId == ij.2.id) with
    | none => simpa [analysisEvents] using ih
    | some a =>
      by_cases hlo : lo ij.1 <;> simp [hlo, analysisEvents] <;>
        simpa [analysisEvents] using ih

theorem jobEvents_generateLoop (as : List Analysis) (lo : Nat → Bool) (t : Nat)
    (l : List (Nat × Job)) :
    jobEvents (generateLoop as lo t l).1 = [] := by
  induction l with
  | nil => rfl
  | cons ij rest ih =>
    simp only [generateLoop]
    cases as.find? (fun a => a.jobId == ij.2.id) with
    | none => simpa [jobEvents] using ih
    | some a =>
      by_cases hlo : lo ij.1 <;> simp [hlo, jobEvents] <;>
        simpa [jobEvents] using ih

theorem errorEvents_generateLoop (as : List Analysis) (lo : Nat → Bool) (t : Nat)
    (l : List (Nat × Job)) :
    errorEvents (generateLoop as lo t l).1 = [] := by
  induction l with
  | nil => rfl
  | cons ij rest ih =>
    simp only [generateLoop]
    cases as.find? (fun a => a.jobId == ij.2.id) with
    | none => simpa [errorEvents] using ih
    | some a =>
      by_cases hlo : lo ij.1 <;> simp [hlo, errorEvents] <;>
        simpa [errorEvents] using ih

theorem filter_isTerminal_generateLoop (as : List Analysis) (lo : Nat → Bool) (t : Nat)
    (l : List (Nat × Job)) :
    (generateLoop as lo t l).1.filter isTerminal = [] := by
  induction l with
  | nil => rfl
  | cons ij rest ih =>
    simp only [generateLoop]
    cases as.find? (fun a => a.jobId == ij.2.id) with
    | none => simpa [isTerminal] using ih
    | some a =>
      by_cases hlo : lo ij.1 <;> simp [hlo, isTerminal] <;>
        simpa [isTerminal] using ih

theorem progressesOf_generating_generateLoop (as : List Analysis) (lo : Nat → Bool)
    (t : Nat) (l : List (Nat × Job)) :
    progressesOf .generating (generateLoop as lo t l).1 =
      l.map fun ij => jsRound (((ij.1 + 1 : ℕ) : ℚ) / (t : ℚ) * 100) := by
  induction l with
  | nil => rfl
  | cons ij rest ih =>
    simp only [generateLoop]
    cases as.find? (fun a => a.jobId == ij.2.id) with
    | none => simpa [progressesOf] using ih
    | some a =>
      by_cases hlo : lo ij.1 <;> simp [hlo, progressesOf] <;>
        simpa [progressesOf] using ih

theorem progressesOf_ne_generating_generateLoop (p : Phase) (hp : p ≠ .generating)
    (as : List Analysis) (lo : Nat → Bool) (t : Nat) (l : List (Nat × Job)) :
    progressesOf p (generateLoop as lo t l).1 = [] := by
  induction l with
  | nil => rfl
  | cons ij rest ih =>
    simp only [generateLoop]
    cases as.find? (fun a => a.jobId == ij.2.id) with
    | none =>
      simp [progressesOf] at ih ⊢
      exact ⟨fun h => hp h.symm, ih⟩
    | some a =>
      by_cases hlo : lo ij.1 <;> simp [hlo, progressesOf] at ih ⊢ <;>
        exact ⟨fun h => hp h.symm, ih⟩

theorem jobEvents_jobStream (jobs : List Job) : jobEvents (jobStream jobs) = jobs := by
  have h := jobEvents_pairStream
    (fun k => jsRound (((k + 1 : ℕ) : ℚ) / (jobs.length : ℚ) * 100)) jobs.enum
  simpa [jobStream, List.enum_map_snd] using h

theorem analysisEvents_jobStream (jobs : List Job) : analysisEvents (jobStream jobs) = [] := by
  have h := analysisEvents_pairStream
    (fun k => jsRound (((k + 1 : ℕ) : ℚ) / (jobs.length : ℚ) * 100)) jobs.enum
  simpa [jobStream] using h

theorem coverLetterEvents_jobStream (jobs : List Job) :
    coverLetterEvents (jobStream jobs) = [] := by
  have h := coverLetterEvents_pairStream
    (fun k => jsRound (((k + 1 : ℕ) : ℚ) / (jobs.length : ℚ) * 100)) jobs.enum
  simpa [jobStream] using h

theorem errorEvents_jobStream (jobs : List Job) : errorEvents (jobStream jobs) = [] := by
  have h := errorEvents_pairStream
    (fun k => jsRound (((k + 1 : ℕ) : ℚ) / (jobs.length : ℚ) * 100)) jobs.enum
  simpa [jobStream] using h

theorem filter_isTerminal_jobStream (jobs : List Job) :
    (jobStream jobs).filter isTerminal = [] := by
  have h := filter_isTerminal_pairStream
    (fun k => jsRound (((k + 1 : ℕ) : ℚ) / (jobs.length : ℚ) * 100)) jobs.enum
  simpa [jobStream] using h

theorem progressesOf_searching_jobStream (jobs : List Job) :
    progressesOf .searching (jobStream jobs) =
      jobs.enum.map fun ij => jsRound (((ij.1 + 1 : ℕ) : ℚ) / (jobs.length : ℚ) * 100) := by
  have h := progressesOf_searching_pairStream
    (fun k => jsRound (((k + 1 : ℕ) : ℚ) / (jobs.length : ℚ) * 100)) jobs.enum
  simpa [jobStream] using h

theorem progressesOf_ne_searching_jobStream (p : Phase) (hp : p ≠ .searching)
    (jobs : List Job) : progressesOf p (jobStream jobs) = [] := by
  have h := progressesOf_ne_searching_pairStream p hp
    (fun k => jsRound (((k + 1 : ℕ) : ℚ) / (jobs.length : ℚ) * 100)) jobs.enum
  simpa [jobStream] using h

/-! ## Branch equations of the pipeline handler -/

theorem runPipeline_missing (inp : PipelineInput) (orc : PipelineOracle)
    (h : inp.resumeFile = none ∨ inp.configJson = none) :
    runPipeline inp orc =
      [Event.errorEv
        ⟨"Missing resume file or search config", "VALIDATION_FAILED", .idle, false⟩] := by
  rcases h with h | h
  · simp only [runPipeline, pipelineBody, h]
  · cases hr : inp.resumeFile <;> simp only [runPipeline, pipelineBody, h, hr]

theorem runPipeline_configThrow (inp : PipelineInput) (orc : PipelineOracle)
    (f : ResumeFile) (je : JsError)
    (h1 : inp.resumeFile = some f) (h2 : inp.configJson = some (Except.error je)) :
    runPipeline inp orc = [wrapEv (Thrown.js je)] := by
  simp only [runPipeline, pipelineBody, h1, h2]
  rfl

theorem runPipeline_extractErr (inp : PipelineInput) (orc : PipelineOracle)
    (f : ResumeFile) (req : PipelineRequest) (p : ErrorPayload)
    (h1 : inp.resumeFile = some f) (h2 : inp.configJson = some (Except.ok req))
    (h3 : extractResume f = ExtractStep.sendErr p) :
    runPipeline inp orc = [Event.phase .parsing 0, Event.errorEv p] := by
  simp only [runPipeline, pipelineBody, h1, h2, h3]

theorem runPipeline_extractThrown (inp : PipelineInput) (orc : PipelineOracle)
    (f : ResumeFile) (req : PipelineRequest) (t : Thrown)
    (h1 : inp.resumeFile = some f) (h2 : inp.configJson = some (Except.ok req))
    (h3 : extractResume f = ExtractStep.thrown t) :
    runPipeline inp orc = [Event.phase .parsing 0, wrapEv t] := by
  simp only [runPipeline, pipelineBody, h1, h2, h3]
  rfl

theorem runPipeline_profileGenThrow (inp : PipelineInput) (orc : PipelineOracle)
    (f : ResumeFile) (req : PipelineRequest) (txt : String) (t : Thrown)
    (h1 : inp.resumeFile = some f) (h2 : inp.configJson = some (Except.ok req))
    (h3 : extractResume f = ExtractStep.ok txt) (h4 : orc.profileGen = Except.error t) :
    runPipeline inp orc =
      [Event.phase .parsing 0, Event.phase .parsing 50, wrapEv t] := by
  simp only [runPipeline, pipelineBody, h1, h2, h3, h4]
  rfl

theorem runPipeline_profileParseThrow (inp : PipelineInput) (orc : PipelineOracle)
    (f : ResumeFile) (req : PipelineRequest) (txt pj : String) (je : JsError)
    (h1 : inp.resumeFile = some f) (h2 : inp.configJson = some (Except.ok req))
    (h3 : extractResume f = ExtractStep.ok txt) (h4 : orc.profileGen = Except.ok pj)
    (h5 : orc.profileParse = some je) :
    runPipeline inp orc =
      [Event.phase .parsing 0, Event.phase .parsing 50, wrapEv (Thrown.js je)] := by
  simp only [runPipeline, pipelineBody, h1, h2, h3, h4, h5]
  rfl

theorem runPipeline_zeroJobs (inp : PipelineInput) (orc : PipelineOracle)
    (f : ResumeFile) (req : PipelineRequest) (txt pj : String)
    (h1 : inp.resumeFile = some f) (h2 : inp.configJson = some (Except.ok req))
    (h3 : extractResume f = ExtractStep.ok txt) (h4 : orc.profileGen = Except.ok pj)
    (h5 : orc.profileParse = none)
    (h6 : runJobs inp req orc = []) :
    runPipeline inp orc =
      [Event.phase .parsing 0, Event.phase .parsing 50, Event.profile,
       Event.phase .parsing 100, Event.phase .searching 0,
       Event.complete zeroSummary] := by
  simp only [runPipeline, pipelineBody, h1, h2, h3, h4, h5, h6]
  rfl

theorem runPipeline_mainPath (inp : PipelineInput) (orc : PipelineOracle)
    (f : ResumeFile) (req : PipelineRequest) (txt pj : String)
    (h1 : inp.resumeFile = some f) (h2 : inp.configJson = some (Except.ok req))
    (h3 : extractResume f = ExtractStep.ok txt) (h4 : orc.profileGen = Except.ok pj)
    (h5 : orc.profileParse = none)
    (h6 : runJobs inp req orc ≠ []) :
    runPipeline inp orc =
      [Event.phase .parsing 0, Event.phase .parsing 50, Event.profile,
       Event.phase .parsing 100, Event.phase .searching 0] ++
      jobStream (runJobs inp req orc) ++ [Event.phase .analyzing 0] ++
      (runAnalyze inp req orc).1 ++ (runGenerate inp req orc).1 ++
      [Event.complete
        (mkSummary (runJobs inp req orc) (runAnalyze inp req orc).2.1
          (runGenerate inp req orc).2)] := by
  have hne : (runJobs inp req orc).isEmpty = false := by
    simpa [List.isEmpty_iff] using h6
  simp only [runPipeline, pipelineBody, h1, h2, h3, h4, h5, hne]
  simp [List.append_assoc]

theorem filter_isTerminal_runGenerate (inp : PipelineInput) (req : PipelineRequest)
    (orc : PipelineOracle) : (runGenerate inp req orc).1.filter isTerminal = [] := by
  unfold runGenerate
  split
  · exact filter_isTerminal_generateLoop _ _ _ _
  · rfl

theorem coverLetterEvents_runGenerate (inp : PipelineInput) (req : PipelineRequest)
    (orc : PipelineOracle) :
    coverLetterEvents (runGenerate inp req orc).1 = (runGenerate inp req orc).2 := by
  unfold runGenerate
  split
  · exact coverLetterEvents_generateLoop _ _ _ _
  · rfl

theorem analysisEvents_runGenerate (inp : PipelineInput) (req : PipelineRequest)
    (orc : PipelineOracle) : analysisEvents (runGenerate inp req orc).1 = [] := by
  unfold runGenerate
  split
  · exact analysisEvents_generateLoop _ _ _ _
  · rfl

theorem jobEvents_runGenerate (inp : PipelineInput) (req : PipelineRequest)
    (orc : PipelineOracle) : jobEvents (runGenerate inp req orc).1 = [] := by
  unfold runGenerate
  split
  · exact jobEvents_generateLoop _ _ _ _
  · rfl

theorem errorEvents_runGenerate (inp : PipelineInput) (req : PipelineRequest)
    (orc : PipelineOracle) : errorEvents (runGenerate inp req orc).1 = [] := by
  unfold runGenerate
  split
  · exact errorEvents_generateLoop _ _ _ _
  · rfl

/-- Every run of the handler, whatever the input and oracle, produces an
event list that ends in one terminal event with no terminal event before
it. -/
theorem runPipeline_terminal_shape (inp : PipelineInput) (orc : PipelineOracle) :
    ∃ pre e, runPipeline inp orc = pre ++ [e] ∧ isTerminal e = true ∧
      pre.filter isTerminal = [] := by
  cases h1 : inp.resumeFile with
  | none =>
    exact ⟨[], Event.errorEv
      ⟨"Missing resume file or search config", "VALIDATION_FAILED", .idle, false⟩,
      by rw [runPipeline_missing inp orc (Or.inl h1)]; rfl, rfl, rfl⟩
  | some f =>
    cases h2 : inp.configJson with
    | none =>
      exact ⟨[], Event.errorEv
        ⟨"Missing resume file or search config", "VALIDATION_FAILED", .idle, false⟩,
        by rw [runPipeline_missing inp orc (Or.inr h2)]; rfl, rfl, rfl⟩
    | some cfg =>
      cases cfg with
      | error je =>
        exact ⟨[], wrapEv (Thrown.js je),
          by rw [runPipeline_configThrow inp orc f je h1 h2]; rfl, rfl, rfl⟩
      | ok req =>
        cases h3 : extractResume f with
        | sendErr p =>
          exact ⟨[Event.phase .parsing 0], Event.errorEv p,
            by rw [runPipeline_extractErr inp orc f req p h1 h2 h3]; rfl, rfl, rfl⟩
        | thrown t =>
          exact ⟨[Event.phase .parsing 0], wrapEv t,
            by rw [runPipeline_extractThrown inp orc f req t h1 h2 h3]; rfl, rfl, rfl⟩
        | ok txt =>
          cases h4 : orc.profileGen with
          | error t =>
            exact ⟨[Event.phase .parsing 0, Event.phase .parsing 50], wrapEv t,
              by rw [runPipeline_profileGenThrow inp orc f req txt t h1 h2 h3 h4]; rfl,
              rfl, rfl⟩
          | ok pj =>
            cases h5 : orc.profileParse with
            | some je =>
              exact ⟨[Event.phase .parsing 0, Event.phase .parsing 50],
                wrapEv (Thrown.js je),
                by rw [runPipeline_profileParseThrow inp orc f req txt pj je h1 h2 h3 h4 h5]
                   rfl,
                rfl, rfl⟩
            | none =>
              by_cases h6 : runJobs inp req orc = []
              · exact ⟨[Event.phase .parsing 0, Event.phase .parsing 50, Event.profile,
                  Event.phase .parsing 100, Event.phase .searching 0],
                  Event.complete zeroSummary,
                  by rw [runPipeline_zeroJobs inp orc f req txt pj h1 h2 h3 h4 h5 h6]; rfl,
                  rfl, rfl⟩
              · refine ⟨[Event.phase .parsing 0, Event.phase .parsing 50, Event.profile,
                  Event.phase .parsing 100, Event.phase .searching 0] ++
                  jobStream (runJobs inp req orc) ++ [Event.phase .analyzing 0] ++
                  (runAnalyze inp req orc).1 ++ (runGenerate inp req orc).1,
                  Event.complete
                    (mkSummary (runJobs inp req orc) (runAnalyze inp req orc).2.1
                      (runGenerate inp req orc).2), ?_, rfl, ?_⟩
                · rw [runPipeline_mainPath inp orc f req txt pj h1 h2 h3 h4 h5 h6]
                · simp only [List.filter_append, filter_isTerminal_jobStream,
                    filter_isTerminal_runGenerate, List.append_nil, List.nil_append]
                  rw [show (runAnalyze inp req orc).1.filter isTerminal = [] from
                    filter_isTerminal_analyzeLoop _ _ _ _ _ _]
                  simp [isTerminal]

/-- C1: for every valid request — resume document present, search
configuration present with at least one target role — the run emits
exactly one terminal event, a `complete` or an `error`, and it is the last
event of the stream: no terminal event precedes it and nothing follows it.
The validity hypotheses scope the claim; the underlying shape lemma shows
the property holds for every run. -/
theorem pipeline_single_terminal_event (inp : PipelineInput) (orc : PipelineOracle)
    (f : ResumeFile) (req : PipelineRequest)
    (hres : inp.resumeFile = some f)
    (hcfg : inp.configJson = some (Except.ok req))
    (hroles : req.searchConfig.targetRoles ≠ []) :
    ∃ pre e, runPipeline inp orc = pre ++ [e] ∧ isTerminal e = true ∧
      pre.filter isTerminal = [] :=
  runPipeline_terminal_shape inp orc

/-- C1 witness: the four-job demo run has exactly one terminal event, in
final position. -/
theorem pipeline_single_terminal_event_witness :
    ∃ pre e, runPipeline demoInput demoOracle = pre ++ [e] ∧ isTerminal e = true ∧
      pre.filter isTerminal = [] :=
  pipeline_single_terminal_event demoInput demoOracle demoFile demoReq rfl rfl (by decide)

/-! ## Deduplication -/

theorem dedupGo_filter_key (K : String) (l : List Job) :
    ∀ seen : List String,
      (dedupGo seen l).filter (fun x => jobKey x == K) =
        if K ∈ seen then [] else (l.filter (fun x => jobKey x == K)).take 1 := by
  induction l with
  | nil => intro seen; by_cases hK : K ∈ seen <;> simp [dedupGo, hK]
  | cons j rest ih =>
    intro seen
    by_cases hj : jobKey j ∈ seen
    · rw [show dedupGo seen (j :: rest) = dedupGo seen rest by simp [dedupGo, hj], ih seen]
      by_cases hK : K ∈ seen
      · simp [hK]
      · have hne : (jobKey j == K) = false := by
          simp only [beq_eq_false_iff_ne, ne_eq]
          intro he
          exact hK (he ▸ hj)
        simp [hK, List.filter_cons, hne]
    · rw [show dedupGo seen (j :: rest) = j :: dedupGo (jobKey j :: seen) rest by
        simp [dedupGo, hj]]
      by_cases hjK : jobKey j = K
      · subst hjK
        rw [List.filter_cons]
        simp only [beq_self_eq_true, if_true, ih (jobKey j :: seen)]
        simp [hj, List.filter_cons]
      · have hne : (jobKey j == K) = false := by simp [hjK]
        have hmem : (K ∈ jobKey j :: seen) ↔ (K ∈ seen) := by
          constructor
          · intro h
            rcases List.mem_cons.mp h with h | h
            · exact absurd h.symm hjK
            · exact h
          · exact fun h => List.mem_cons_of_mem _ h
        rw [List.filter_cons]
        simp only [hne, Bool.false_eq_true, if_false, ih (jobKey j :: seen)]
        simp [hmem, List.filter_cons, hne]

theorem deduplicateJobs_filter_key (jobs : List Job) (K : String) :
    (deduplicateJobs jobs).filter (fun x => jobKey x == K) =
      (jobs.filter (fun x => jobKey x == K)).take 1 := by
  have h := dedupGo_filter_key K jobs []
  simpa [deduplicateJobs] using h

/-- A run that reaches the searching stage streams exactly the
deduplicated job list as `job` events. -/
theorem jobEvents_runPipeline (inp : PipelineInput) (orc : PipelineOracle)
    (f : ResumeFile) (req : PipelineRequest) (txt pj : String)
    (h1 : inp.resumeFile = some f) (h2 : inp.configJson = some (Except.ok req))
    (h3 : extractResume f = ExtractStep.ok txt) (h4 : orc.profileGen = Except.ok pj)
    (h5 : orc.profileParse = none) :
    jobEvents (runPipeline inp orc) = runJobs inp req orc := by
  by_cases h6 : runJobs inp req orc = []
  · rw [runPipeline_zeroJobs inp orc f req txt pj h1 h2 h3 h4 h5 h6, h6]
    rfl
  · rw [runPipeline_mainPath inp orc f req txt pj h1 h2 h3 h4 h5 h6]
    simp only [jobEvents_append, jobEvents_jobStream]
    rw [show jobEvents (runAnalyze inp req orc).1 = [] from
      jobEvents_analyzeLoop _ _ _ _ _ _, jobEvents_runGenerate]
    simp [jobEvents]

/-- C5 (amended): deduplication is first-wins on the concatenated key
string `lower(trim(company)) ++ "-" ++ lower(trim(title))`: among the
found listings sharing a key, exactly the first one is streamed as a `job`
event.  In particular two listings with identical normalized
(company, title) pairs produce exactly one `job` event, the first; but
distinct pairs whose concatenations collide are also deduplicated. -/
theorem job_events_dedup_first_wins (inp : PipelineInput) (orc : PipelineOracle)
    (f : ResumeFile) (req : PipelineRequest) (txt pj : String)
    (h1 : inp.resumeFile = some f) (h2 : inp.configJson = some (Except.ok req))
    (h3 : extractResume f = ExtractStep.ok txt) (h4 : orc.profileGen = Except.ok pj)
    (h5 : orc.profileParse = none) (j : Job) :
    (jobEvents (runPipeline inp orc)).filter (fun x => jobKey x == jobKey j) =
      ((foundJobs inp req orc).filter (fun x => jobKey x == jobKey j)).take 1 := by
  rw [jobEvents_runPipeline inp orc f req txt pj h1 h2 h3 h4 h5]
  exact deduplicateJobs_filter_key _ _

/-- C5 witness: in the hyphen-collision run, the `job` events filtered to
the colliding key are exactly the first found listing. -/
theorem job_events_dedup_first_wins_witness :
    (jobEvents (runPipeline demoInput hyphenOracle)).filter
        (fun x => jobKey x == jobKey hyphenJob2) =
      ((foundJobs demoInput demoReq hyphenOracle).filter
        (fun x => jobKey x == jobKey hyphenJob2)).take 1 :=
  job_events_dedup_first_wins demoInput hyphenOracle demoFile demoReq
    "resume text" "ok" rfl rfl rfl rfl rfl hyphenJob2

/-- C5 counterexample: two found listings whose normalized
(company, title) pairs are distinct nevertheless produce a single `job`
event, because the dedup key concatenates the fields with a hyphen:
`("acme-x", "dev")` and `("acme", "x-dev")` collide, and the first
occurrence of the second pair is dropped — refuting the claim that the
first occurrence of every (company, title) key is kept. -/
theorem dedup_drops_distinct_pair_cex :
    foundJobs demoInput demoReq hyphenOracle = [hyphenJob1, hyphenJob2] ∧
    jobEvents (runPipeline demoInput hyphenOracle) = [hyphenJob1] ∧
    ¬ (strTrim (strLower hyphenJob2.company) = strTrim (strLower hyphenJob1.company) ∧
       strTrim (strLower hyphenJob2.title) = strTrim (strLower hyphenJob1.title)) :=
  ⟨by decide, by decide, by decide⟩

/-! ## Cover-letter threshold, error wrapping and validation -/

theorem snd_mem_of_mem_enum {α : Type} {l : List α} {ij : Nat × α} (h : ij ∈ l.enum) :
    ij.2 ∈ l := by
  have hm := List.mem_map_of_mem Prod.snd h
  rwa [List.enum_map_snd] at hm

/-- C6: a `coverLetter` event is emitted only for a job id whose stream
also carries an `analysis` event with `overallScore` at or above the
effective minimum fit score (`options?.minFitScore ?? 60`). -/
theorem cover_letters_only_above_threshold (inp : PipelineInput) (orc : PipelineOracle)
    (req : PipelineRequest)
    (hcfg : inp.configJson = some (Except.ok req)) (c : Letter)
    (hc : c ∈ coverLetterEvents (runPipeline inp orc)) :
    ∃ a ∈ analysisEvents (runPipeline inp orc),
      a.jobId = c.jobId ∧ effMinFit req ≤ a.overallScore := by
  cases h1 : inp.resumeFile with
  | none =>
    rw [runPipeline_missing inp orc (Or.inl h1)] at hc
    simp [coverLetterEvents] at hc
  | some f =>
    cases h3 : extractResume f with
    | sendErr p =>
      rw [runPipeline_extractErr inp orc f req p h1 hcfg h3] at hc
      simp [coverLetterEvents] at hc
    | thrown t =>
      rw [runPipeline_extractThrown inp orc f req t h1 hcfg h3] at hc
      simp [coverLetterEvents, wrapEv] at hc
    | ok txt =>
      cases h4 : orc.profileGen with
      | error t =>
        rw [runPipeline_profileGenThrow inp orc f req txt t h1 hcfg h3 h4] at hc
        simp [coverLetterEvents, wrapEv] at hc
      | ok pj =>
        cases h5 : orc.profileParse with
        | some je =>
          rw [runPipeline_profileParseThrow inp orc f req txt pj je h1 hcfg h3 h4 h5] at hc
          simp [coverLetterEvents, wrapEv] at hc
        | none =>
          by_cases h6 : runJobs inp req orc = []
          · rw [runPipeline_zeroJobs inp orc f req txt pj h1 hcfg h3 h4 h5 h6] at hc
            simp [coverLetterEvents] at hc
          · have hae : analysisEvents (runPipeline inp orc) = (runAnalyze inp req orc).2.1 := by
              rw [runPipeline_mainPath inp orc f req txt pj h1 hcfg h3 h4 h5 h6]
              simp only [analysisEvents_append, analysisEvents_jobStream,
                analysisEvents_runGenerate]
              rw [show analysisEvents (runAnalyze inp req orc).1 =
                (runAnalyze inp req orc).2.1 from analysisEvents_analyzeLoop _ _ _ _ _ _]
              simp [analysisEvents]
            rw [runPipeline_mainPath inp orc f req txt pj h1 hcfg h3 h4 h5 h6] at hc
            simp only [coverLetterEvents_append, coverLetterEvents_jobStream,
              coverLetterEvents_runGenerate] at hc
            rw [show coverLetterEvents (runAnalyze inp req orc).1 = [] from
              coverLetterEvents_analyzeLoop _ _ _ _ _ _] at hc
            simp only [coverLetterEvents, List.filterMap_cons, List.filterMap_nil,
              List.nil_append, List.append_nil] at hc
            unfold runGenerate at hc
            rcases hsplit : (effGenCL req && !(runAnalyze inp req orc).2.2.isEmpty) with _ | _
            · rw [hsplit] at hc
              simp at hc
            · rw [hsplit] at hc
              simp only [if_true] at hc
              obtain ⟨ij, hij, hid⟩ := mem_generateLoop_letters _ _ _ _ _ hc
              have hmem2 : ij.2 ∈ (runAnalyze inp req orc).2.2 := snd_mem_of_mem_enum hij
              have hhf : (runAnalyze inp req orc).2.2 =
                  highFitOf (runJobs inp req orc) (effMinFit req)
                    (runAnalyze inp req orc).2.1 :=
                analyzeLoop_highFit _ _ _ _ _ _
              rw [hhf] at hmem2
              obtain ⟨a, ha, hsc, haid⟩ := mem_highFitOf _ _ _ _ hmem2
              refine ⟨a, hae ▸ ha, ?_, hsc⟩
              rw [hid, ← haid]

/-- C6 witness: in the four-job demo run the cover letter for job `j1`
has a matching analysis with score 90 at or above the default threshold
60. -/
theorem cover_letters_only_above_threshold_witness :
    ∃ a ∈ analysisEvents (runPipeline demoInput demoOracle),
      a.jobId = (Letter.mk "j1").jobId ∧ effMinFit demoReq ≤ a.overallScore :=
  cover_letters_only_above_threshold demoInput demoOracle demoReq rfl ⟨"j1"⟩ (by decide)

/-- C3 (amended): when the profile-extraction model call succeeds but its
output is not valid JSON, `JSON.parse` throws an unclassified exception
that escapes to the top-level handler: the run emits exactly one `error`
event, with kind UNKNOWN, phase `error` and `recoverable = false` (not
PARSE_FAILED / parsing / recoverable as the specification states), and the
stream closes after it. -/
theorem malformed_profile_json_unknown_error (inp : PipelineInput) (orc : PipelineOracle)
    (f : ResumeFile) (req : PipelineRequest) (txt pj : String) (je : JsError)
    (h1 : inp.resumeFile = some f) (h2 : inp.configJson = some (Except.ok req))
    (h3 : extractResume f = ExtractStep.ok txt) (h4 : orc.profileGen = Except.ok pj)
    (h5 : orc.profileParse = some je) :
    runPipeline inp orc =
      [Event.phase .parsing 0, Event.phase .parsing 50,
       Event.errorEv ⟨je.message, "UNKNOWN", Phase.error, false⟩] ∧
    errorEvents (runPipeline inp orc) =
      [⟨je.message, "UNKNOWN", Phase.error, false⟩] := by
  have h := runPipeline_profileParseThrow inp orc f req txt pj je h1 h2 h3 h4 h5
  refine ⟨by rw [h]; rfl, by rw [h]; rfl⟩

/-- C3 witness: the malformed-JSON demo run emits exactly the wrapped
UNKNOWN error event. -/
theorem malformed_profile_json_unknown_error_witness :
    runPipeline demoInput malformedProfileOracle =
      [Event.phase .parsing 0, Event.phase .parsing 50,
       Event.errorEv ⟨"Unexpected token S in JSON at position 0", "UNKNOWN",
         Phase.error, false⟩] ∧
    errorEvents (runPipeline demoInput malformedProfileOracle) =
      [⟨"Unexpected token S in JSON at position 0", "UNKNOWN", Phase.error, false⟩] :=
  malformed_profile_json_unknown_error demoInput malformedProfileOracle demoFile demoReq
    "resume text" "Sure! Here is the JSON you asked for"
    ⟨"Unexpected token S in JSON at position 0", "", ""⟩ rfl rfl rfl rfl rfl

/-- C3 counterexample: the error event for malformed profile JSON has kind
UNKNOWN, phase `error` and recoverable = false — the claimed kind
PARSE_FAILED, phase `parsing` and recoverable = true all fail. -/
theorem malformed_profile_json_cex :
    errorEvents (runPipeline demoInput malformedProfileOracle) =
      [⟨"Unexpected token S in JSON at position 0", "UNKNOWN", Phase.error, false⟩] ∧
    ("UNKNOWN" : String) ≠ "PARSE_FAILED" ∧ Phase.error ≠ Phase.parsing ∧
    (false : Bool) ≠ true :=
  ⟨by decide, by decide, by decide, by decide⟩

/-- C8 (amended): the pipeline entry point validates only the presence of
the two form fields: a missing resume or config yields the single
VALIDATION_FAILED error event (recoverable = false, phase idle); an empty
`targetRoles` list is not rejected — the run proceeds and terminates with
a `complete` event carrying the all-zero summary and no error event.
Document size and emptiness are not checked by this route at all. -/
theorem validation_only_checks_presence (inp : PipelineInput) (orc : PipelineOracle) :
    (inp.resumeFile = none ∨ inp.configJson = none →
      runPipeline inp orc =
        [Event.errorEv ⟨"Missing resume file or search config",
          "VALIDATION_FAILED", .idle, false⟩]) ∧
    (∀ f req txt pj, inp.resumeFile = some f → inp.configJson = some (Except.ok req) →
      extractResume f = ExtractStep.ok txt → orc.profileGen = Except.ok pj →
      orc.profileParse = none → req.searchConfig.targetRoles = [] →
      runPipeline inp orc =
        [Event.phase .parsing 0, Event.phase .parsing 50, Event.profile,
         Event.phase .parsing 100, Event.phase .searching 0,
         Event.complete zeroSummary] ∧
      errorEvents (runPipeline inp orc) = []) := by
  refine ⟨runPipeline_missing inp orc, ?_⟩
  intro f req txt pj h1 h2 h3 h4 h5 hroles
  have h6 : runJobs inp req orc = [] := by
    simp [runJobs, foundJobs, searchAll, hroles, filterIgnoredSites, deduplicateJobs, dedupGo]
  have h := runPipeline_zeroJobs inp orc f req txt pj h1 h2 h3 h4 h5 h6
  exact ⟨h, by rw [h]; rfl⟩

/-- C8 witness: the missing-fields input is rejected with
VALIDATION_FAILED, and the empty-roles input completes with the zero
summary. -/
theorem validation_only_checks_presence_witness :
    runPipeline ⟨none, none, []⟩ demoOracle =
      [Event.errorEv ⟨"Missing resume file or search config",
        "VALIDATION_FAILED", .idle, false⟩] ∧
    runPipeline emptyRolesInput demoOracle =
      [Event.phase .parsing 0, Event.phase .parsing 50, Event.profile,
       Event.phase .parsing 100, Event.phase .searching 0,
       Event.complete zeroSummary] :=
  ⟨(validation_only_checks_presence ⟨none, none, []⟩ demoOracle).1 (Or.inl rfl),
   ((validation_only_checks_presence emptyRolesInput demoOracle).2 demoFile emptyRolesReq
     "resume text" "ok" rfl rfl rfl rfl rfl rfl).1⟩

/-- C8 counterexample: a request whose `targetRoles` list is empty is not
rejected: its run emits no error event at all and ends in a `complete`
event with the zero summary, refuting the claimed VALIDATION_FAILED
rejection. -/
theorem empty_roles_not_rejected_cex :
    emptyRolesReq.searchConfig.targetRoles = [] ∧
    errorEvents (runPipeline emptyRolesInput demoOracle) = [] ∧
    (runPipeline emptyRolesInput demoOracle).getLast? =
      some (Event.complete zeroSummary) :=
  ⟨rfl, by decide, by decide⟩

/-- C9 (amended): whenever the pipeline body throws, the handler emits the
events already sent followed by exactly one `error` event built by
`wrapError(error, 'error', 'UNKNOWN')`: an already classified ScouterError
passes through with its own kind, phase and recoverability; any other
exception is wrapped with kind UNKNOWN, recoverable = false, and the
constant phase `error` that the route passes — not the phase that was
active when the exception escaped. -/
theorem top_level_wrap_behavior (inp : PipelineInput) (orc : PipelineOracle)
    (evs : List Event) (t : Thrown)
    (hb : pipelineBody inp orc = (evs, Exit.threw t)) :
    runPipeline inp orc = evs ++ [wrapEv t] ∧
    (∀ se, t = Thrown.scouter se →
      wrapEv t = Event.errorEv ⟨se.message, se.code, se.phase, se.recoverable⟩) ∧
    (∀ je, t = Thrown.js je →
      wrapEv t = Event.errorEv ⟨je.message, "UNKNOWN", Phase.error, false⟩) := by
  refine ⟨?_, ?_, ?_⟩
  · unfold runPipeline
    rw [hb]
  · rintro se rfl
    rfl
  · rintro je rfl
    rfl

/-- C9 witness: the network-failure demo run appends the wrapped UNKNOWN
error event to the two parsing events already sent. -/
theorem top_level_wrap_behavior_witness :
    runPipeline demoInput networkFailOracle =
      [Event.phase .parsing 0, Event.phase .parsing 50] ++
        [wrapEv (Thrown.js ⟨"fetch failed", "", ""⟩)] ∧
    (∀ se, Thrown.js ⟨"fetch failed", "", ""⟩ = Thrown.scouter se →
      wrapEv (Thrown.js ⟨"fetch failed", "", ""⟩) =
        Event.errorEv ⟨se.message, se.code, se.phase, se.recoverable⟩) ∧
    (∀ je, Thrown.js ⟨"fetch failed", "", ""⟩ = Thrown.js je →
      wrapEv (Thrown.js ⟨"fetch failed", "", ""⟩) =
        Event.errorEv ⟨je.message, "UNKNOWN", Phase.error, false⟩) :=
  top_level_wrap_behavior demoInput networkFailOracle
    [Event.phase .parsing 0, Event.phase .parsing 50]
    (Thrown.js ⟨"fetch failed", "", ""⟩) (by decide)

/-- C9 counterexample: an unclassified exception escaping while the
parsing phase is active is emitted with payload phase `error`, not
`parsing`: the claim that the wrapped phase equals the phase active at the
escape point fails. -/
theorem wrap_phase_not_active_phase_cex :
    runPipeline demoInput networkFailOracle =
      [Event.phase .parsing 0, Event.phase .parsing 50,
       Event.errorEv ⟨"fetch failed", "UNKNOWN", Phase.error, false⟩] ∧
    Phase.error ≠ Phase.parsing :=
  ⟨by decide, by decide⟩

/-- C2 counterexample: in the zero-jobs run the emitted progress sequence
is [0, 50, 100, 0]: it regresses at the parsing-to-searching boundary and
the final progress value before `complete` is 0, not 100 — refuting both
the cross-phase monotonicity and the final-progress clause of the
claim. -/
theorem progress_regresses_cex :
    phaseProgresses (runPipeline demoInput emptySearchOracle) = [0, 50, 100, 0] ∧
    ¬ (List.Chain' (· ≤ ·) (phaseProgresses (runPipeline demoInput emptySearchOracle)) ∧
       (phaseProgresses (runPipeline demoInput emptySearchOracle)).getLast? =
         some 100) := by
  have h : phaseProgresses (runPipeline demoInput emptySearchOracle) = [0, 50, 100, 0] := by
    decide
  refine ⟨h, ?_⟩
  rw [h]
  rintro ⟨hch, _⟩
  norm_num [List.chain'_cons] at hch

theorem analysisEvents_runPipeline_main (inp : PipelineInput) (orc : PipelineOracle)
    (f : ResumeFile) (req : PipelineRequest) (txt pj : String)
    (h1 : inp.resumeFile = some f) (h2 : inp.configJson = some (Except.ok req))
    (h3 : extractResume f = ExtractStep.ok txt) (h4 : orc.profileGen = Except.ok pj)
    (h5 : orc.profileParse = none) (h6 : runJobs inp req orc ≠ []) :
    analysisEvents (runPipeline inp orc) = (runAnalyze inp req orc).2.1 := by
  rw [runPipeline_mainPath inp orc f req txt pj h1 h2 h3 h4 h5 h6]
  simp only [analysisEvents_append, analysisEvents_jobStream, analysisEvents_runGenerate]
  rw [show analysisEvents (runAnalyze inp req orc).1 = (runAnalyze inp req orc).2.1 from
    analysisEvents_analyzeLoop _ _ _ _ _ _]
  simp [analysisEvents]

theorem coverLetterEvents_runPipeline_main (inp : PipelineInput) (orc : PipelineOracle)
    (f : ResumeFile) (req : PipelineRequest) (txt pj : String)
    (h1 : inp.resumeFile = some f) (h2 : inp.configJson = some (Except.ok req))
    (h3 : extractResume f = ExtractStep.ok txt) (h4 : orc.profileGen = Except.ok pj)
    (h5 : orc.profileParse = none) (h6 : runJobs inp req orc ≠ []) :
    coverLetterEvents (runPipeline inp orc) = (runGenerate inp req orc).2 := by
  rw [runPipeline_mainPath inp orc f req txt pj h1 h2 h3 h4 h5 h6]
  simp only [coverLetterEvents_append, coverLetterEvents_jobStream,
    coverLetterEvents_runGenerate]
  rw [show coverLetterEvents (runAnalyze inp req orc).1 = [] from
    coverLetterEvents_analyzeLoop _ _ _ _ _ _]
  simp [coverLetterEvents]

theorem getLast_runPipeline_main (inp : PipelineInput) (orc : PipelineOracle)
    (f : ResumeFile) (req : PipelineRequest) (txt pj : String)
    (h1 : inp.resumeFile = some f) (h2 : inp.configJson = some (Except.ok req))
    (h3 : extractResume f = ExtractStep.ok txt) (h4 : orc.profileGen = Except.ok pj)
    (h5 : orc.profileParse = none) (h6 : runJobs inp req orc ≠ []) :
    (runPipeline inp orc).getLast? =
      some (Event.complete
        (mkSummary (runJobs inp req orc) (runAnalyze inp req orc).2.1
          (runGenerate inp req orc).2)) := by
  rw [runPipeline_mainPath inp orc f req txt pj h1 h2 h3 h4 h5 h6]
  exact List.getLast?_concat _

theorem mkSummary_totalJobs (j : List Job) (a : List Analysis) (l : List Letter) :
    (mkSummary j a l).totalJobs = j.length := rfl

theorem mkSummary_analyzedJobs (j : List Job) (a : List Analysis) (l : List Letter) :
    (mkSummary j a l).analyzedJobs = a.length := rfl

theorem mkSummary_highFitJobs (j : List Job) (a : List Analysis) (l : List Letter) :
    (mkSummary j a l).highFitJobs =
      (a.filter fun x => decide (80 ≤ x.overallScore)).length := rfl

theorem mkSummary_mediumFitJobs (j : List Job) (a : List Analysis) (l : List Letter) :
    (mkSummary j a l).mediumFitJobs =
      (a.filter fun x => decide (60 ≤ x.overallScore ∧ x.overallScore < 80)).length := rfl

theorem mkSummary_coverLetters (j : List Job) (a : List Analysis) (l : List Letter) :
    (mkSummary j a l).coverLettersGenerated = l.length := rfl

/-- C10: when the request options set `generateCoverLetters` to `false`,
the run emits no `coverLetter` event; the `complete` summary — the last
event when the run completes — reports `coverLettersGenerated = 0`; and
the `analysis` events as well as the remaining summary fields (totalJobs,
analyzedJobs, highFitJobs, mediumFitJobs) are identical to those of the
same run with the flag set to `true`. -/
theorem no_cover_letters_when_disabled (inp : PipelineInput) (orc : PipelineOracle)
    (req : PipelineRequest) (o : PipelineOptions)
    (hcfg : inp.configJson = some (Except.ok req))
    (hopt : req.options = some o)
    (hgen : o.generateCoverLetters = some false) :
    coverLetterEvents (runPipeline inp orc) = [] ∧
    (∀ s, (runPipeline inp orc).getLast? = some (Event.complete s) →
      s.coverLettersGenerated = 0) ∧
    analysisEvents (runPipeline inp orc) =
      analysisEvents (runPipeline
        { inp with configJson := some (Except.ok
            { req with options := some ({ o with generateCoverLetters := some true }) }) }
        orc) ∧
    (∀ s s_2, (runPipeline inp orc).getLast? = some (Event.complete s) →
      (runPipeline
        { inp with configJson := some (Except.ok
            { req with options := some ({ o with generateCoverLetters := some true }) }) }
        orc).getLast? = some (Event.complete s_2) →
      s.totalJobs = s_2.totalJobs ∧ s.analyzedJobs = s_2.analyzedJobs ∧
      s.highFitJobs = s_2.highFitJobs ∧ s.mediumFitJobs = s_2.mediumFitJobs) := by
  have hgcl : effGenCL req = false := by simp [effGenCL, hopt, hgen]
  have hrg : runGenerate inp req orc = ([], []) := by simp [runGenerate, hgcl]
  obtain ⟨req2, hreq2⟩ : ∃ r, r =
      ({ req with options := some ({ o with generateCoverLetters := some true }) } :
        PipelineRequest) := ⟨_, rfl⟩
  rw [← hreq2]
  obtain ⟨inp2, hinp2⟩ : ∃ i, i =
      ({ inp with configJson := some (Except.ok req2) } : PipelineInput) := ⟨_, rfl⟩
  rw [← hinp2]
  have h1a : inp2.resumeFile = inp.resumeFile := by rw [hinp2]
  have h2b : inp2.configJson = some (Except.ok req2) := by rw [hinp2]
  have hig : inp2.ignoredSites = inp.ignoredSites := by rw [hinp2]
  have hcfg2 : req2.searchConfig = req.searchConfig := by rw [hreq2]
  have hmf : effMinFit req2 = effMinFit req := by
    rw [hreq2]
    simp [effMinFit, hopt]
  have hjobs2 : runJobs inp2 req2 orc = runJobs inp req orc := by
    simp [runJobs, foundJobs, hig, hcfg2]
  have hana : runAnalyze inp2 req2 orc = runAnalyze inp req orc := by
    simp [runAnalyze, hjobs2, hmf]
  cases h1 : inp.resumeFile with
  | none =>
    have h1b : inp2.resumeFile = none := by rw [h1a, h1]
    rw [runPipeline_missing inp orc (Or.inl h1), runPipeline_missing inp2 orc (Or.inl h1b)]
    refine ⟨by simp [coverLetterEvents], ?_, rfl, ?_⟩
    · intro s hs
      simp at hs
    · intro s s_2 hs
      simp at hs
  | some f =>
    have h1b : inp2.resumeFile = some f := by rw [h1a, h1]
    cases h3 : extractResume f with
    | sendErr p =>
      rw [runPipeline_extractErr inp orc f req p h1 hcfg h3,
        runPipeline_extractErr inp2 orc f req2 p h1b h2b h3]
      refine ⟨by simp [coverLetterEvents], ?_, rfl, ?_⟩
      · intro s hs
        simp at hs
      · intro s s_2 hs
        simp at hs
    | thrown t =>
      rw [runPipeline_extractThrown inp orc f req t h1 hcfg h3,
        runPipeline_extractThrown inp2 orc f req2 t h1b h2b h3]
      refine ⟨by simp [coverLetterEvents, wrapEv], ?_, rfl, ?_⟩
      · intro s hs
        simp [wrapEv] at hs
      · intro s s_2 hs
        simp [wrapEv] at hs
    | ok txt =>
      cases h4 : orc.profileGen with
      | error t =>
        rw [runPipeline_profileGenThrow inp orc f req txt t h1 hcfg h3 h4,
          runPipeline_profileGenThrow inp2 orc f req2 txt t h1b h2b h3 h4]
        refine ⟨by simp [coverLetterEvents, wrapEv], ?_, rfl, ?_⟩
        · intro s hs
          simp [wrapEv] at hs
        · intro s s_2 hs
          simp [wrapEv] at hs
      | ok pj =>
        cases h5 : orc.profileParse with
        | some je =>
          rw [runPipeline_profileParseThrow inp orc f req txt pj je h1 hcfg h3 h4 h5,
            runPipeline_profileParseThrow inp2 orc f req2 txt pj je h1b h2b h3 h4 h5]
          refine ⟨by simp [coverLetterEvents, wrapEv], ?_, rfl, ?_⟩
          · intro s hs
            simp [wrapEv] at hs
          · intro s s_2 hs
            simp [wrapEv] at hs
        | none =>
          by_cases h6 : runJobs inp req orc = []
          · have h6b : runJobs inp2 req2 orc = [] := by rw [hjobs2, h6]
            rw [runPipeline_zeroJobs inp orc f req txt pj h1 hcfg h3 h4 h5 h6,
              runPipeline_zeroJobs inp2 orc f req2 txt pj h1b h2b h3 h4 h5 h6b]
            refine ⟨by simp [coverLetterEvents], ?_, rfl, ?_⟩
            · intro s hs
              simp at hs
              rw [← hs]
              rfl
            · intro s s_2 hs hs2
              simp at hs hs2
              rw [← hs, ← hs2]
              exact ⟨rfl, rfl, rfl, rfl⟩
          · have h6b : runJobs inp2 req2 orc ≠ [] := by rw [hjobs2]; exact h6
            refine ⟨?_, ?_, ?_, ?_⟩
            · rw [coverLetterEvents_runPipeline_main inp orc f req txt pj
                h1 hcfg h3 h4 h5 h6, hrg]
            · intro s hs
              rw [getLast_runPipeline_main inp orc f req txt pj h1 hcfg h3 h4 h5 h6] at hs
              have hseq : mkSummary (runJobs inp req orc) (runAnalyze inp req orc).2.1
                  (runGenerate inp req orc).2 = s :=
                Event.complete.inj (Option.some.inj hs)
              rw [← hseq, hrg, mkSummary_coverLetters]
              rfl
            · rw [analysisEvents_runPipeline_main inp orc f req txt pj h1 hcfg h3 h4 h5 h6,
                analysisEvents_runPipeline_main inp2 orc f req2 txt pj h1b h2b h3 h4 h5 h6b,
                hana]
            · intro s s_2 hs hs2
              rw [getLast_runPipeline_main inp orc f req txt pj h1 hcfg h3 h4 h5 h6] at hs
              rw [getLast_runPipeline_main inp2 orc f req2 txt pj h1b h2b h3 h4 h5 h6b] at hs2
              have hseq : mkSummary (runJobs inp req orc) (runAnalyze inp req orc).2.1
                  (runGenerate inp req orc).2 = s :=
                Event.complete.inj (Option.some.inj hs)
              have hseq2 : mkSummary (runJobs inp2 req2 orc) (runAnalyze inp2 req2 orc).2.1
                  (runGenerate inp2 req2 orc).2 = s_2 :=
                Event.complete.inj (Option.some.inj hs2)
              rw [← hseq, ← hseq2, hana, hjobs2]
              simp only [mkSummary_totalJobs, mkSummary_analyzedJobs, mkSummary_highFitJobs,
                mkSummary_mediumFitJobs]
              refine ⟨?_, ?_, ?_, ?_⟩ <;> trivial

/-- C10 witness: with cover letters disabled the four-job demo run emits
no coverLetter event, its summary reports zero cover letters, and its
analysis events and other summary fields agree with the enabled run. -/
theorem no_cover_letters_when_disabled_witness :
    coverLetterEvents (runPipeline noLettersInput demoOracle) = [] ∧
    (∀ s, (runPipeline noLettersInput demoOracle).getLast? = some (Event.complete s) →
      s.coverLettersGenerated = 0) ∧
    analysisEvents (runPipeline noLettersInput demoOracle) =
      analysisEvents (runPipeline withLettersInput demoOracle) ∧
    (∀ s s_2,
      (runPipeline noLettersInput demoOracle).getLast? = some (Event.complete s) →
      (runPipeline withLettersInput demoOracle).getLast? = some (Event.complete s_2) →
      s.totalJobs = s_2.totalJobs ∧ s.analyzedJobs = s_2.analyzedJobs ∧
      s.highFitJobs = s_2.highFitJobs ∧ s.mediumFitJobs = s_2.mediumFitJobs) :=
  no_cover_letters_when_disabled noLettersInput demoOracle noLettersReq noLettersOpts
    rfl rfl rfl

/-! ## Analyzing-stage batching -/

theorem filter_isAnalyzing_pairStream (g : Nat → Int) (l : List (Nat × Job)) :
    (l.flatMap fun ij => [Event.job ij.2, Event.phase .searching (g ij.1)]).filter
      isAnalyzingEvent = [] := by
  induction l with
  | nil => rfl
  | cons x xs ih => simp [List.filter_append, isAnalyzingEvent] at ih ⊢; exact ih

theorem filter_isAnalyzing_jobStream (jobs : List Job) :
    (jobStream jobs).filter isAnalyzingEvent = [] := by
  have h := filter_isAnalyzing_pairStream
    (fun k => jsRound (((k + 1 : ℕ) : ℚ) / (jobs.length : ℚ) * 100)) jobs.enum
  simpa [jobStream] using h

theorem filter_isAnalyzing_map_analysis (l : List Analysis) :
    (l.map Event.analysis).filter isAnalyzingEvent = l.map Event.analysis := by
  induction l with
  | nil => rfl
  | cons a t ih =>
    simp only [List.map_cons, List.filter_cons]
    simp [isAnalyzingEvent, ih]

theorem filter_isAnalyzing_analyzeLoop (A : List Job) (t : Nat) (m : Int)
    (s : Nat → Option Int) (i : Nat) (l : List (Nat × Job)) :
    (analyzeLoop A t m s i l).1.filter isAnalyzingEvent = (analyzeLoop A t m s i l).1 := by
  induction i, l using analyzeLoop.induct A t m s with
  | case1 i => rfl
  | case2 i x y z rest ih =>
    rw [analyzeLoop.eq_2]
    dsimp only
    rw [List.filter_append, List.filter_append, filter_isAnalyzing_map_analysis, ih]
    simp [isAnalyzingEvent]
  | case3 i batch h1 h2 =>
    rw [analyzeLoop.eq_3 A t m s i batch h1 h2]
    dsimp only
    rw [List.filter_append, filter_isAnalyzing_map_analysis]
    simp [isAnalyzingEvent]

theorem filter_isAnalyzing_generateLoop (as : List Analysis) (lo : Nat → Bool) (t : Nat)
    (l : List (Nat × Job)) :
    (generateLoop as lo t l).1.filter isAnalyzingEvent = [] := by
  induction l with
  | nil => rfl
  | cons ij rest ih =>
    simp only [generateLoop]
    cases as.find? (fun a => a.jobId == ij.2.id) with
    | none => simpa [isAnalyzingEvent] using ih
    | some a =>
      by_cases hlo : lo ij.1 <;> simp [hlo, isAnalyzingEvent] <;>
        simpa [isAnalyzingEvent] using ih

theorem filter_isAnalyzing_runGenerate (inp : PipelineInput) (req : PipelineRequest)
    (orc : PipelineOracle) : (runGenerate inp req orc).1.filter isAnalyzingEvent = [] := by
  unfold runGenerate
  split
  · exact filter_isAnalyzing_generateLoop _ _ _ _
  · rfl

theorem analyzePs_length (t : Nat) (i : Nat) (l : List (Nat × Job)) :
    (analyzePs t i l).length = (chunks3 l).length := by
  induction i, l using analyzePs.induct t with
  | case1 i => rfl
  | case2 i x y z rest ih =>
    rw [analyzePs.eq_2, chunks3.eq_2]
    simpa using ih
  | case3 i batch h1 h2 =>
    rw [analyzePs.eq_3 t i batch h1 h2, chunks3.eq_3 batch h1 h2]
    rfl

/-- C7: in a run that reaches the analyzing stage, the jobs are processed
in
batches of three consecutive listings (the last batch possibly smaller):
the `analysis` events are exactly the successful analyses in listing
order, and the analyzing-stage events consist of the initial zero-progress
event followed by, per batch, that batch's successful analyses in batch
order and then exactly one `phase` progress event.  In this sequential
model the batch loop awaits the whole `Promise.all` batch before emitting,
so emission order is construction order, not completion order. -/
theorem analyzing_batches_of_three (inp : PipelineInput) (orc : PipelineOracle)
    (f : ResumeFile) (req : PipelineRequest) (txt pj : String)
    (h1 : inp.resumeFile = some f) (h2 : inp.configJson = some (Except.ok req))
    (h3 : extractResume f = ExtractStep.ok txt) (h4 : orc.profileGen = Except.ok pj)
    (h5 : orc.profileParse = none) (h6 : runJobs inp req orc ≠ []) :
    analysisEvents (runPipeline inp orc) =
      (runJobs inp req orc).enum.filterMap
        (fun kj => (orc.analyzeScore kj.1).map fun v => Analysis.mk kj.2.id v) ∧
    ∃ ps : List Int,
      ps.length = (chunks3 (runJobs inp req orc).enum).length ∧
      (runPipeline inp orc).filter isAnalyzingEvent =
        Event.phase .analyzing 0 ::
          ((chunks3 (runJobs inp req orc).enum).zip ps).flatMap
            (fun bp => specBatchEvents orc.analyzeScore bp.1 ++
              [Event.phase .analyzing bp.2]) := by
  constructor
  · rw [analysisEvents_runPipeline_main inp orc f req txt pj h1 h2 h3 h4 h5 h6]
    exact analyzeLoop_analyses _ _ _ _ _ _
  · refine ⟨analyzePs (runJobs inp req orc).length 0 (runJobs inp req orc).enum,
      analyzePs_length _ _ _, ?_⟩
    rw [runPipeline_mainPath inp orc f req txt pj h1 h2 h3 h4 h5 h6]
    simp only [List.filter_append, filter_isAnalyzing_jobStream,
      filter_isAnalyzing_runGenerate]
    rw [show (runAnalyze inp req orc).1.filter isAnalyzingEvent =
        (runAnalyze inp req orc).1 from filter_isAnalyzing_analyzeLoop _ _ _ _ _ _]
    rw [show (runAnalyze inp req orc).1 =
        ((chunks3 (runJobs inp req orc).enum).zip
          (analyzePs (runJobs inp req orc).length 0 (runJobs inp req orc).enum)).flatMap
          (fun bp => specBatchEvents orc.analyzeScore bp.1 ++
            [Event.phase .analyzing bp.2]) from analyzeLoop_structure _ _ _ _ _ _]
    simp [isAnalyzingEvent]

/-- C7 witness: the four-job demo run batches as [three jobs, one job],
with the stated analyzing-stage event structure. -/
theorem analyzing_batches_of_three_witness :
    analysisEvents (runPipeline demoInput demoOracle) =
      (runJobs demoInput demoReq demoOracle).enum.filterMap
        (fun kj => (demoOracle.analyzeScore kj.1).map fun v => Analysis.mk kj.2.id v) ∧
    ∃ ps : List Int,
      ps.length = (chunks3 (runJobs demoInput demoReq demoOracle).enum).length ∧
      (runPipeline demoInput demoOracle).filter isAnalyzingEvent =
        Event.phase .analyzing 0 ::
          ((chunks3 (runJobs demoInput demoReq demoOracle).enum).zip ps).flatMap
            (fun bp => specBatchEvents demoOracle.analyzeScore bp.1 ++
              [Event.phase .analyzing bp.2]) :=
  analyzing_batches_of_three demoInput demoOracle demoFile demoReq "resume text" "ok"
    rfl rfl rfl rfl rfl (by decide)

/-- C4 witness: under the standard preset with the random draws fixed at
one half, the trace returns 42 after exactly two retries with delays 1000
and 2000. -/
theorem withRetry_failNThenSucceed_witness :
    (withRetry standardPreset witRetryOp (fun _ => 1/2)).result = Except.ok 42 ∧
    (withRetry standardPreset witRetryOp (fun _ => 1/2)).retries = [(1, 1000), (2, 2000)] := by
  have h := withRetry_failNThenSucceed standardPreset witRetryOp (fun _ => 1/2) 42 2
    (by decide)
    (fun k hk => ⟨.scouter ⟨"request timed out", "TIMEOUT", true, .parsing⟩,
      by unfold witRetryOp; simp [hk], by decide⟩)
    (by decide) (by norm_num [standardPreset, defaultRetryConfig])
    (by norm_num [standardPreset, defaultRetryConfig])
    (by norm_num [standardPreset, defaultRetryConfig]) (fun _ => by norm_num)
  refine ⟨h.1, ?_⟩
  rw [h.2.1]
  norm_num [List.range_succ, calculateDelay, standardPreset, defaultRetryConfig, Int.floor_eq_iff]

/-! ## Progress arithmetic and monotonicity -/

theorem jsRound_div_nonneg (m n : Nat) : 0 ≤ jsRound ((m : ℚ) / (n : ℚ) * 100) := by
  unfold jsRound
  refine Int.le_floor.mpr ?_
  push_cast
  positivity

theorem jsRound_le_100_of_le (q : ℚ) (h : q ≤ 100) : jsRound q ≤ 100 := by
  unfold jsRound
  have h1 : Int.floor (q + 1/2) < 101 := by
    rw [Int.floor_lt]
    push_cast
    linarith
  omega

theorem jsRound_div_le_100 (m n : Nat) (hm : m ≤ n) (hn : n ≠ 0) :
    jsRound ((m : ℚ) / (n : ℚ) * 100) ≤ 100 := by
  apply jsRound_le_100_of_le
  have hn0 : (0 : ℚ) < n := by exact_mod_cast Nat.pos_of_ne_zero hn
  have h1 : (m : ℚ) / n ≤ 1 := by
    rw [div_le_one hn0]
    exact_mod_cast hm
  have h2 : (m : ℚ) / n * 100 ≤ 1 * 100 :=
    mul_le_mul_of_nonneg_right h1 (by norm_num)
  linarith

theorem jsRound_div_mono (m m' n : Nat) (h : m ≤ m') :
    jsRound ((m : ℚ) / (n : ℚ) * 100) ≤ jsRound ((m' : ℚ) / (n : ℚ) * 100) := by
  unfold jsRound
  apply Int.floor_le_floor
  rcases Nat.eq_zero_or_pos n with hn | hn
  · subst hn
    norm_num
  · have hn0 : (0 : ℚ) < n := by exact_mod_cast hn
    have hmm : (m : ℚ) ≤ m' := by exact_mod_cast h
    gcongr

theorem jsRound_div_self (n : Nat) (hn : n ≠ 0) :
    jsRound ((n : ℚ) / (n : ℚ) * 100) = 100 := by
  have hn0 : ((n : ℚ)) ≠ 0 := Nat.cast_ne_zero.mpr hn
  rw [div_self hn0]
  norm_num [jsRound, Int.floor_eq_iff]

theorem jsRound_zero_num (n : Nat) : jsRound (((0 : Nat) : ℚ) / (n : ℚ) * 100) = 0 := by
  norm_num [jsRound, Int.floor_eq_iff]

theorem mem_enumFrom_map {α : Type} (g : Nat → Int) (x : Int) :
    ∀ (l : List α) (i : Nat), x ∈ (List.enumFrom i l).map (fun ij => g ij.1) →
      ∃ k, i ≤ k ∧ k < i + l.length ∧ x = g k
  | [], _, h => by simp at h
  | a :: t, i, h => by
    rw [List.enumFrom_cons, List.map_cons, List.mem_cons] at h
    rcases h with h | h
    · exact ⟨i, le_refl i, by simp, h⟩
    · obtain ⟨k, hk1, hk2, hk3⟩ := mem_enumFrom_map g x t (i + 1) h
      refine ⟨k, by omega, ?_, hk3⟩
      simp only [List.length_cons]
      omega

theorem chain_le_enumFrom_map {α : Type} (g : Nat → Int)
    (hg : ∀ k, g k ≤ g (k + 1)) :
    ∀ (l : List α) (i : Nat),
      List.Chain' (fun a b : Int => a ≤ b) ((List.enumFrom i l).map (fun ij => g ij.1))
  | [], _ => List.chain'_nil
  | [a], i => by
    rw [List.enumFrom_cons]
    exact List.chain'_singleton _
  | a :: b :: t, i => by
    rw [List.enumFrom_cons, List.map_cons]
    refine List.chain'_cons'.mpr ⟨?_, chain_le_enumFrom_map g hg (b :: t) (i + 1)⟩
    intro y hy
    rw [List.enumFrom_cons, List.map_cons] at hy
    simp only [List.head?_cons, Option.mem_def, Option.some.injEq] at hy
    subst hy
    exact hg i

theorem getLast_enumFrom_map {α : Type} (g : Nat → Int) :
    ∀ (l : List α) (i : Nat), l ≠ [] →
      ((List.enumFrom i l).map (fun ij => g ij.1)).getLast? = some (g (i + l.length - 1))
  | [], _, h => absurd rfl h
  | [a], i, _ => by
    rw [List.enumFrom_cons]
    simp
  | a :: b :: t, i, _ => by
    rw [List.enumFrom_cons, List.map_cons, List.enumFrom_cons, List.map_cons,
      List.getLast?_cons_cons]
    have h := getLast_enumFrom_map g (b :: t) (i + 1) (List.cons_ne_nil b t)
    rw [List.enumFrom_cons, List.map_cons] at h
    rw [h, (by simp only [List.length_cons]; omega :
      i + 1 + (b :: t).length - 1 = i + (a :: b :: t).length - 1)]

theorem analyzePs_ne_nil (t : Nat) (i : Nat) (l : List (Nat × Job)) (h : l ≠ []) :
    analyzePs t i l ≠ [] := by
  induction i, l using analyzePs.induct t with
  | case1 i => exact absurd rfl h
  | case2 i x y z rest ih =>
    rw [analyzePs.eq_2]
    simp
  | case3 i batch h1 h2 =>
    rw [analyzePs.eq_3 t i batch h1 h2]
    simp

theorem analyzePs_getLast (t : Nat) (i : Nat) (l : List (Nat × Job)) (h : l ≠ []) :
    (analyzePs t i l).getLast? =
      some (jsRound (((i + l.length : ℕ) : ℚ) / (t : ℚ) * 100)) := by
  induction i, l using analyzePs.induct t with
  | case1 i => exact absurd rfl h
  | case2 i x y z rest ih =>
    rw [analyzePs.eq_2]
    rcases eq_or_ne rest [] with hrest | hrest
    · subst hrest
      simp [analyzePs]
    · obtain ⟨b, u, hbu⟩ :=
        List.exists_cons_of_ne_nil (analyzePs_ne_nil t (i + 3) rest hrest)
      rw [hbu, List.getLast?_cons_cons, ← hbu, ih hrest]
      congr 2
      simp only [List.length_cons]
      push_cast
      ring
  | case3 i batch h1 h2 =>
    rw [analyzePs.eq_3 t i batch h1 h2]
    rfl

theorem analyzePs_mem (t : Nat) (i : Nat) (l : List (Nat × Job)) (x : Int)
    (hx : x ∈ analyzePs t i l) :
    ∃ m, m ≤ i + l.length ∧ x = jsRound ((m : ℚ) / (t : ℚ) * 100) := by
  induction i, l using analyzePs.induct t with
  | case1 i => simp [analyzePs] at hx
  | case2 i x y z rest ih =>
    rw [analyzePs.eq_2] at hx
    rcases List.mem_cons.mp hx with h | h
    · refine ⟨i + 3, ?_, h⟩
      simp only [List.length_cons]
      omega
    · obtain ⟨m, hm1, hm2⟩ := ih h
      refine ⟨m, ?_, hm2⟩
      simp only [List.length_cons] at hm1 ⊢
      omega
  | case3 i batch h1 h2 =>
    rw [analyzePs.eq_3 t i batch h1 h2] at hx
    rcases List.mem_cons.mp hx with h | h
    · exact ⟨i + batch.length, le_refl _, h⟩
    · simp at h

theorem analyzePs_chain (t i : Nat) (l : List (Nat × Job)) :
    List.Chain' (fun a b : Int => a ≤ b)
      (jsRound ((i : ℚ) / (t : ℚ) * 100) :: analyzePs t i l) := by
  induction i, l using analyzePs.induct t with
  | case1 i => exact List.chain'_singleton _
  | case2 i x y z rest ih =>
    rw [analyzePs.eq_2]
    exact List.chain'_cons.mpr ⟨jsRound_div_mono i (i + 3) t (by omega), ih⟩
  | case3 i batch h1 h2 =>
    rw [analyzePs.eq_3 t i batch h1 h2]
    exact List.chain'_cons.mpr
      ⟨jsRound_div_mono i (i + batch.length) t (by omega), List.chain'_singleton _⟩

theorem getLast?_cons_ne_nil {α : Type} (a : α) (l : List α) (h : l ≠ []) :
    (a :: l).getLast? = l.getLast? := by
  obtain ⟨b, t, rfl⟩ := List.exists_cons_of_ne_nil h
  exact List.getLast?_cons_cons

theorem map_enum_ne_nil (l : List Job) (h : l ≠ []) (g : Nat × Job → Int) :
    l.enum.map g ≠ [] := by
  obtain ⟨a, t, rfl⟩ := List.exists_cons_of_ne_nil h
  rw [show (a :: t).enum = (0, a) :: List.enumFrom 1 t from rfl, List.map_cons]
  exact List.cons_ne_nil _ _

theorem getLast_enum_map_100 (l : List Job) (h : l ≠ []) :
    ((l.enum.map fun ij =>
      jsRound (((ij.1 + 1 : ℕ) : ℚ) / (l.length : ℚ) * 100)).getLast?) = some 100 := by
  have hl := getLast_enumFrom_map (fun k =>
      jsRound (((k + 1 : ℕ) : ℚ) / (l.length : ℚ) * 100)) l 0 h
  have hlen : l.length ≠ 0 := fun hz => h (List.length_eq_zero.mp hz)
  simp only [] at hl
  rw [(by omega : 0 + l.length - 1 + 1 = l.length)] at hl
  rw [show l.enum = List.enumFrom 0 l from rfl]
  exact hl.trans (congrArg some (jsRound_div_self _ hlen))

/-! ## Phase-progress characterizations of the main path -/

theorem phaseProgresses_cons_phase (p : Phase) (v : Int) (evs : List Event) :
    phaseProgresses (Event.phase p v :: evs) = v :: phaseProgresses evs := rfl

theorem phaseProgresses_nil : phaseProgresses ([] : List Event) = [] := rfl

theorem progressesOf_cons_phase_ne (p q : Phase) (hpq : q ≠ p) (v : Int) (evs : List Event) :
    progressesOf p (Event.phase q v :: evs) = progressesOf p evs := by
  simp [progressesOf, hpq]

theorem progressesOf_cons_phase_self (p : Phase) (v : Int) (evs : List Event) :
    progressesOf p (Event.phase p v :: evs) = v :: progressesOf p evs := by
  simp [progressesOf]

theorem phaseProgresses_map_analysis (l : List Analysis) :
    phaseProgresses (l.map Event.analysis) = [] := by
  induction l with
  | nil => rfl
  | cons a t _ih => simp [phaseProgresses]

theorem phaseProgresses_pairStream (g : Nat → Int) (l : List (Nat × Job)) :
    phaseProgresses (l.flatMap fun ij => [Event.job ij.2, Event.phase .searching (g ij.1)]) =
      l.map fun ij => g ij.1 := by
  induction l with
  | nil => rfl
  | cons x xs ih => simp [phaseProgresses, List.filterMap_append] at ih ⊢; exact ih

theorem phaseProgresses_jobStream (jobs : List Job) :
    phaseProgresses (jobStream jobs) =
      jobs.enum.map fun ij => jsRound (((ij.1 + 1 : ℕ) : ℚ) / (jobs.length : ℚ) * 100) := by
  have h := phaseProgresses_pairStream
    (fun k => jsRound (((k + 1 : ℕ) : ℚ) / (jobs.length : ℚ) * 100)) jobs.enum
  simpa [jobStream] using h

theorem phaseProgresses_analyzeLoop (A : List Job) (t : Nat) (m : Int)
    (s : Nat → Option Int) (i : Nat) (l : List (Nat × Job)) :
    phaseProgresses (analyzeLoop A t m s i l).1 = analyzePs t i l := by
  induction i, l using analyzeLoop.induct A t m s with
  | case1 i => rfl
  | case2 i x y z rest ih =>
    rw [analyzeLoop.eq_2, analyzePs.eq_2]
    dsimp only
    rw [phaseProgresses_append, phaseProgresses_append, phaseProgresses_map_analysis, ih]
    simp [phaseProgresses]
  | case3 i batch h1 h2 =>
    rw [analyzeLoop.eq_3 A t m s i batch h1 h2, analyzePs.eq_3 t i batch h1 h2]
    dsimp only
    rw [phaseProgresses_append, phaseProgresses_map_analysis]
    simp [phaseProgresses]

theorem phaseProgresses_generateLoop (as : List Analysis) (lo : Nat → Bool)
    (t : Nat) (l : List (Nat × Job)) :
    phaseProgresses (generateLoop as lo t l).1 =
      l.map fun ij => jsRound (((ij.1 + 1 : ℕ) : ℚ) / (t : ℚ) * 100) := by
  induction l with
  | nil => rfl
  | cons ij rest ih =>
    simp only [generateLoop]
    cases as.find? (fun a => a.jobId == ij.2.id) with
    | none => simpa [phaseProgresses] using ih
    | some a =>
      by_cases hlo : lo ij.1 <;> simp [hlo, phaseProgresses] <;>
        simpa [phaseProgresses] using ih

theorem runGenerate_pos (inp : PipelineInput) (req : PipelineRequest) (orc : PipelineOracle)
    (hc : (effGenCL req && !(runAnalyze inp req orc).2.2.isEmpty) = true) :
    (runGenerate inp req orc).1 =
      Event.phase .generating 0 ::
        (generateLoop (runAnalyze inp req orc).2.1 orc.letterOk
          (runAnalyze inp req orc).2.2.length (runAnalyze inp req orc).2.2.enum).1 := by
  unfold runGenerate
  rw [if_pos hc]

theorem runGenerate_neg (inp : PipelineInput) (req : PipelineRequest) (orc : PipelineOracle)
    (hc : (effGenCL req && !(runAnalyze inp req orc).2.2.isEmpty) = false) :
    (runGenerate inp req orc).1 = [] := by
  unfold runGenerate
  rw [if_neg (by simp [hc])]

theorem progressesOf_runAnalyze (p : Phase) (hp : p ≠ .analyzing) (inp : PipelineInput)
    (req : PipelineRequest) (orc : PipelineOracle) :
    progressesOf p (runAnalyze inp req orc).1 = [] :=
  progressesOf_ne_analyzing_analyzeLoop p hp _ _ _ _ _ _

theorem progressesOf_analyzing_runAnalyze (inp : PipelineInput) (req : PipelineRequest)
    (orc : PipelineOracle) :
    progressesOf .analyzing (runAnalyze inp req orc).1 =
      analyzePs (runJobs inp req orc).length 0 (runJobs inp req orc).enum :=
  progressesOf_analyzing_analyzeLoop _ _ _ _ _ _

theorem phaseProgresses_runAnalyze (inp : PipelineInput) (req : PipelineRequest)
    (orc : PipelineOracle) :
    phaseProgresses (runAnalyze inp req orc).1 =
      analyzePs (runJobs inp req orc).length 0 (runJobs inp req orc).enum :=
  phaseProgresses_analyzeLoop _ _ _ _ _ _

theorem progressesOf_ne_generating_runGenerate (p : Phase) (hp : p ≠ .generating)
    (inp : PipelineInput) (req : PipelineRequest) (orc : PipelineOracle) :
    progressesOf p (runGenerate inp req orc).1 = [] := by
  cases hb : (effGenCL req && !(runAnalyze inp req orc).2.2.isEmpty) with
  | false => rw [runGenerate_neg inp req orc hb]; rfl
  | true =>
    rw [runGenerate_pos inp req orc hb,
      progressesOf_cons_phase_ne p .generating (Ne.symm hp) 0 _]
    exact progressesOf_ne_generating_generateLoop p hp _ _ _ _

theorem progressesOf_generating_runGenerate (inp : PipelineInput) (req : PipelineRequest)
    (orc : PipelineOracle) :
    progressesOf .generating (runGenerate inp req orc).1 =
      phaseProgresses (runGenerate inp req orc).1 := by
  cases hb : (effGenCL req && !(runAnalyze inp req orc).2.2.isEmpty) with
  | false => rw [runGenerate_neg inp req orc hb]; rfl
  | true =>
    rw [runGenerate_pos inp req orc hb, progressesOf_cons_phase_self,
      progressesOf_generating_generateLoop, phaseProgresses_cons_phase,
      phaseProgresses_generateLoop]

theorem progressesOf_parsing_main (inp : PipelineInput) (orc : PipelineOracle)
    (f : ResumeFile) (req : PipelineRequest) (txt pj : String)
    (h1 : inp.resumeFile = some f) (h2 : inp.configJson = some (Except.ok req))
    (h3 : extractResume f = ExtractStep.ok txt) (h4 : orc.profileGen = Except.ok pj)
    (h5 : orc.profileParse = none) (h6 : runJobs inp req orc ≠ []) :
    progressesOf .parsing (runPipeline inp orc) = [0, 50, 100] := by
  rw [runPipeline_mainPath inp orc f req txt pj h1 h2 h3 h4 h5 h6]
  simp only [progressesOf_append]
  rw [progressesOf_ne_searching_jobStream _ (by decide),
    progressesOf_runAnalyze _ (by decide),
    progressesOf_ne_generating_runGenerate _ (by decide)]
  simp [progressesOf]

theorem progressesOf_searching_main (inp : PipelineInput) (orc : PipelineOracle)
    (f : ResumeFile) (req : PipelineRequest) (txt pj : String)
    (h1 : inp.resumeFile = some f) (h2 : inp.configJson = some (Except.ok req))
    (h3 : extractResume f = ExtractStep.ok txt) (h4 : orc.profileGen = Except.ok pj)
    (h5 : orc.profileParse = none) (h6 : runJobs inp req orc ≠ []) :
    progressesOf .searching (runPipeline inp orc) =
      0 :: ((runJobs inp req orc).enum.map fun ij =>
        jsRound (((ij.1 + 1 : ℕ) : ℚ) / ((runJobs inp req orc).length : ℚ) * 100)) := by
  rw [runPipeline_mainPath inp orc f req txt pj h1 h2 h3 h4 h5 h6]
  simp only [progressesOf_append]
  rw [progressesOf_searching_jobStream,
    progressesOf_runAnalyze _ (by decide),
    progressesOf_ne_generating_runGenerate _ (by decide)]
  simp [progressesOf]

theorem progressesOf_analyzing_main (inp : PipelineInput) (orc : PipelineOracle)
    (f : ResumeFile) (req : PipelineRequest) (txt pj : String)
    (h1 : inp.resumeFile = some f) (h2 : inp.configJson = some (Except.ok req))
    (h3 : extractResume f = ExtractStep.ok txt) (h4 : orc.profileGen = Except.ok pj)
    (h5 : orc.profileParse = none) (h6 : runJobs inp req orc ≠ []) :
    progressesOf .analyzing (runPipeline inp orc) =
      0 :: analyzePs (runJobs inp req orc).length 0 (runJobs inp req orc).enum := by
  rw [runPipeline_mainPath inp orc f req txt pj h1 h2 h3 h4 h5 h6]
  simp only [progressesOf_append]
  rw [progressesOf_ne_searching_jobStream _ (by decide),
    progressesOf_analyzing_runAnalyze,
    progressesOf_ne_generating_runGenerate _ (by decide)]
  simp [progressesOf]

theorem progressesOf_generating_main (inp : PipelineInput) (orc : PipelineOracle)
    (f : ResumeFile) (req : PipelineRequest) (txt pj : String)
    (h1 : inp.resumeFile = some f) (h2 : inp.configJson = some (Except.ok req))
    (h3 : extractResume f = ExtractStep.ok txt) (h4 : orc.profileGen = Except.ok pj)
    (h5 : orc.profileParse = none) (h6 : runJobs inp req orc ≠ []) :
    progressesOf .generating (runPipeline inp orc) =
      phaseProgresses (runGenerate inp req orc).1 := by
  rw [runPipeline_mainPath inp orc f req txt pj h1 h2 h3 h4 h5 h6]
  simp only [progressesOf_append]
  rw [progressesOf_ne_searching_jobStream _ (by decide),
    progressesOf_runAnalyze _ (by decide),
    progressesOf_generating_runGenerate]
  simp [progressesOf]

theorem progressesOf_other_main (p : Phase) (hp1 : p ≠ .parsing) (hp2 : p ≠ .searching)
    (hp3 : p ≠ .analyzing) (hp4 : p ≠ .generating)
    (inp : PipelineInput) (orc : PipelineOracle)
    (f : ResumeFile) (req : PipelineRequest) (txt pj : String)
    (h1 : inp.resumeFile = some f) (h2 : inp.configJson = some (Except.ok req))
    (h3 : extractResume f = ExtractStep.ok txt) (h4 : orc.profileGen = Except.ok pj)
    (h5 : orc.profileParse = none) (h6 : runJobs inp req orc ≠ []) :
    progressesOf p (runPipeline inp orc) = [] := by
  rw [runPipeline_mainPath inp orc f req txt pj h1 h2 h3 h4 h5 h6]
  simp only [progressesOf_append]
  rw [progressesOf_ne_searching_jobStream _ hp2,
    progressesOf_runAnalyze _ hp3,
    progressesOf_ne_generating_runGenerate _ hp4]
  simp [progressesOf, Ne.symm hp1, Ne.symm hp2, Ne.symm hp3]

theorem phaseProgresses_runPipeline_main (inp : PipelineInput) (orc : PipelineOracle)
    (f : ResumeFile) (req : PipelineRequest) (txt pj : String)
    (h1 : inp.resumeFile = some f) (h2 : inp.configJson = some (Except.ok req))
    (h3 : extractResume f = ExtractStep.ok txt) (h4 : orc.profileGen = Except.ok pj)
    (h5 : orc.profileParse = none) (h6 : runJobs inp req orc ≠ []) :
    phaseProgresses (runPipeline inp orc) =
      [0, 50, 100, 0] ++
      ((runJobs inp req orc).enum.map fun ij =>
        jsRound (((ij.1 + 1 : ℕ) : ℚ) / ((runJobs inp req orc).length : ℚ) * 100)) ++
      [0] ++ analyzePs (runJobs inp req orc).length 0 (runJobs inp req orc).enum ++
      phaseProgresses (runGenerate inp req orc).1 := by
  rw [runPipeline_mainPath inp orc f req txt pj h1 h2 h3 h4 h5 h6]
  simp only [phaseProgresses_append]
  rw [phaseProgresses_jobStream, phaseProgresses_runAnalyze]
  simp [phaseProgresses, List.append_assoc]

/-- C2 (amended): on a successful run of the pipeline (valid request,
successful extraction and profile parse, at least one job found), every
progress value carried by a `phase` event is an integer in [0,100], the
progress values emitted within each single phase are non-decreasing, and
the final progress value emitted before the `complete` event is 100.
Monotonicity across phase boundaries fails: each new phase restarts at
progress 0 (see the counterexample). -/
theorem progress_bounded_monotone_within_phase (inp : PipelineInput) (orc : PipelineOracle)
    (f : ResumeFile) (req : PipelineRequest) (txt pj : String)
    (h1 : inp.resumeFile = some f) (h2 : inp.configJson = some (Except.ok req))
    (h3 : extractResume f = ExtractStep.ok txt) (h4 : orc.profileGen = Except.ok pj)
    (h5 : orc.profileParse = none) (h6 : runJobs inp req orc ≠ []) :
    (∀ pr ∈ phaseProgresses (runPipeline inp orc), 0 ≤ pr ∧ pr ≤ 100) ∧
    (∀ p : Phase, List.Chain' (fun a b : Int => a ≤ b)
      (progressesOf p (runPipeline inp orc))) ∧
    (phaseProgresses (runPipeline inp orc)).getLast? = some 100 := by
  have hn : (runJobs inp req orc).length ≠ 0 := fun hz => h6 (List.length_eq_zero.mp hz)
  have hP := phaseProgresses_runPipeline_main inp orc f req txt pj h1 h2 h3 h4 h5 h6
  refine ⟨?_, ?_, ?_⟩
  · intro pr hpr
    rw [hP] at hpr
    rcases List.mem_append.mp hpr with hmain | hG
    · rcases List.mem_append.mp hmain with hmain | hA
      · rcases List.mem_append.mp hmain with hmain | h0
        · rcases List.mem_append.mp hmain with hlit | hS
          · simp only [List.mem_cons, List.not_mem_nil, or_false] at hlit
            rcases hlit with rfl | rfl | rfl | rfl <;> norm_num
          · obtain ⟨k, hk0, hk2, rfl⟩ := mem_enumFrom_map
              (fun k => jsRound (((k + 1 : ℕ) : ℚ) / ((runJobs inp req orc).length : ℚ) * 100))
              pr (runJobs inp req orc) 0 hS
            exact ⟨jsRound_div_nonneg _ _, jsRound_div_le_100 _ _ (by omega) hn⟩
        · simp only [List.mem_singleton] at h0
          subst h0
          norm_num
      · obtain ⟨m, hm, rfl⟩ := analyzePs_mem _ _ _ _ hA
        have hm2 : m ≤ (runJobs inp req orc).length := by
          simpa [List.enum_length] using hm
        exact ⟨jsRound_div_nonneg _ _, jsRound_div_le_100 _ _ hm2 hn⟩
    · cases hc : (effGenCL req && !(runAnalyze inp req orc).2.2.isEmpty) with
      | false =>
        rw [runGenerate_neg inp req orc hc, phaseProgresses_nil] at hG
        simp at hG
      | true =>
        rw [runGenerate_pos inp req orc hc, phaseProgresses_cons_phase,
          phaseProgresses_generateLoop] at hG
        have hhf : (runAnalyze inp req orc).2.2 ≠ [] := by
          simp only [Bool.and_eq_true] at hc
          intro hEq
          rw [hEq] at hc
          simp at hc
        have hlen : (runAnalyze inp req orc).2.2.length ≠ 0 :=
          fun hz => hhf (List.length_eq_zero.mp hz)
        rcases List.mem_cons.mp hG with rfl | hG2
        · norm_num
        · obtain ⟨k, hk0, hk2, rfl⟩ := mem_enumFrom_map
            (fun k => jsRound (((k + 1 : ℕ) : ℚ) /
              ((runAnalyze inp req orc).2.2.length : ℚ) * 100))
            pr (runAnalyze inp req orc).2.2 0 hG2
          exact ⟨jsRound_div_nonneg _ _, jsRound_div_le_100 _ _ (by omega) hlen⟩
  · intro p
    cases p with
    | parsing =>
      rw [progressesOf_parsing_main inp orc f req txt pj h1 h2 h3 h4 h5 h6]
      norm_num [List.chain'_cons]
    | searching =>
      rw [progressesOf_searching_main inp orc f req txt pj h1 h2 h3 h4 h5 h6]
      refine List.chain'_cons'.mpr ⟨?_, ?_⟩
      · intro y hy
        obtain ⟨k, hk0, hk2, rfl⟩ := mem_enumFrom_map
          (fun k => jsRound (((k + 1 : ℕ) : ℚ) / ((runJobs inp req orc).length : ℚ) * 100))
          y (runJobs inp req orc) 0 (List.mem_of_mem_head? hy)
        exact jsRound_div_nonneg _ _
      · exact chain_le_enumFrom_map _
          (fun k => jsRound_div_mono (k + 1) (k + 1 + 1) _ (by omega))
          (runJobs inp req orc) 0
    | analyzing =>
      rw [progressesOf_analyzing_main inp orc f req txt pj h1 h2 h3 h4 h5 h6]
      have h := analyzePs_chain (runJobs inp req orc).length 0 (runJobs inp req orc).enum
      rwa [jsRound_zero_num] at h
    | generating =>
      rw [progressesOf_generating_main inp orc f req txt pj h1 h2 h3 h4 h5 h6]
      cases hc : (effGenCL req && !(runAnalyze inp req orc).2.2.isEmpty) with
      | false =>
        rw [runGenerate_neg inp req orc hc, phaseProgresses_nil]
        exact List.chain'_nil
      | true =>
        rw [runGenerate_pos inp req orc hc, phaseProgresses_cons_phase,
          phaseProgresses_generateLoop]
        refine List.chain'_cons'.mpr ⟨?_, ?_⟩
        · intro y hy
          obtain ⟨k, hk0, hk2, rfl⟩ := mem_enumFrom_map
            (fun k => jsRound (((k + 1 : ℕ) : ℚ) /
              ((runAnalyze inp req orc).2.2.length : ℚ) * 100))
            y (runAnalyze inp req orc).2.2 0 (List.mem_of_mem_head? hy)
          exact jsRound_div_nonneg _ _
        · exact chain_le_enumFrom_map _
            (fun k => jsRound_div_mono (k + 1) (k + 1 + 1) _ (by omega))
            (runAnalyze inp req orc).2.2 0
    | idle =>
      rw [progressesOf_other_main _ (by decide) (by decide) (by decide) (by decide)
        inp orc f req txt pj h1 h2 h3 h4 h5 h6]
      exact List.chain'_nil
    | exporting =>
      rw [progressesOf_other_main _ (by decide) (by decide) (by decide) (by decide)
        inp orc f req txt pj h1 h2 h3 h4 h5 h6]
      exact List.chain'_nil
    | completed =>
      rw [progressesOf_other_main _ (by decide) (by decide) (by decide) (by decide)
        inp orc f req txt pj h1 h2 h3 h4 h5 h6]
      exact List.chain'_nil
    | cancelled =>
      rw [progressesOf_other_main _ (by decide) (by decide) (by decide) (by decide)
        inp orc f req txt pj h1 h2 h3 h4 h5 h6]
      exact List.chain'_nil
    | error =>
      rw [progressesOf_other_main _ (by decide) (by decide) (by decide) (by decide)
        inp orc f req txt pj h1 h2 h3 h4 h5 h6]
      exact List.chain'_nil
  · rw [hP]
    cases hc : (effGenCL req && !(runAnalyze inp req orc).2.2.isEmpty) with
    | false =>
      rw [runGenerate_neg inp req orc hc, phaseProgresses_nil, List.append_nil]
      have henum : (runJobs inp req orc).enum ≠ [] := by
        obtain ⟨a, t, ht⟩ := List.exists_cons_of_ne_nil h6
        rw [ht]
        exact List.cons_ne_nil _ _
      rw [List.getLast?_append_of_ne_nil _
        (analyzePs_ne_nil (runJobs inp req orc).length 0 _ henum)]
      rw [analyzePs_getLast _ _ _ henum,
        (by simp [List.enum_length] : 0 + (runJobs inp req orc).enum.length =
          (runJobs inp req orc).length)]
      exact congrArg some (jsRound_div_self _ hn)
    | true =>
      rw [runGenerate_pos inp req orc hc, phaseProgresses_cons_phase,
        phaseProgresses_generateLoop]
      have hhf : (runAnalyze inp req orc).2.2 ≠ [] := by
        simp only [Bool.and_eq_true] at hc
        intro hEq
        rw [hEq] at hc
        simp at hc
      rw [List.getLast?_append_of_ne_nil _ (List.cons_ne_nil _ _),
        getLast?_cons_ne_nil _ _ (map_enum_ne_nil _ hhf _)]
      exact getLast_enum_map_100 _ hhf

/-- C2 witness: the four-job demo run has all progress values in [0,100],
non-decreasing progress within every phase, and final progress 100. -/
theorem progress_bounded_monotone_within_phase_witness :
    (∀ pr ∈ phaseProgresses (runPipeline demoInput demoOracle), 0 ≤ pr ∧ pr ≤ 100) ∧
    (∀ p : Phase, List.Chain' (fun a b : Int => a ≤ b)
      (progressesOf p (runPipeline demoInput demoOracle))) ∧
    (phaseProgresses (runPipeline demoInput demoOracle)).getLast? = some 100 :=
  progress_bounded_monotone_within_phase demoInput demoOracle demoFile demoReq
    "resume text" "ok" rfl rfl rfl rfl rfl (by decide)

end Scouter
